import Mathlib

/-!
# SAIGEgds: per-variant score tests (`src/saige_main.cpp`)

A shallow embedding of `saige_score_test_init`, `saige_score_test_quant` and
`saige_score_test_bin`, and the properties of the specification settled on it.

* `double` is an arbitrary linearly ordered field `F`: exact arithmetic, without
  rounding.  The definitions evaluate at `F = ℚ`; the algebraic theorems hold in
  every such field, `ℝ` included, and a theorem that relates the results of two
  calls (C3, C4, C7, C10) is a statement of exact arithmetic.  Division follows the
  field convention `x / 0 = 0`; every concrete evaluation below avoids division by
  zero.
* A raw dosage entry is an `Option F`: `none` is an entry the imputation kernel
  treats as missing (the missing sentinel, or a value outside the valid dosage
  range).
* Pointers into R memory are functions `Nat → F`; a K-by-n matrix is a function
  of the coefficient index and the sample index.  A kernel that fills `n` cells of
  an array leaves the other cells as they were.
* `sqrt`, `Rf_pchisq`, `Rf_qnorm5` and `Saddle_Prob` are external; they are the
  fields of `Numerics`.  A non-finite result of a distribution function is `none`.
* The module-level globals are the two records `Model` (read-only after
  ingestion) and `Buffers` (scratch memory, threaded through every call).
* The kernels of `vectorization.h` are not part of `src/`; each is modelled from
  section 4.1 of the specification and from the comment at its call site.
-/

namespace SAIGEgds

variable {F : Type} [LinearOrderedField F]

/-! ## Loops -/

/-- The accumulation loop `s = init; for (i = 0; i < n; i++) s += f i`. -/
def accum (init : F) : Nat → (Nat → F) → F
  | 0, _ => init
  | n + 1, f => accum init n f + f n

/-- The inline helper `sq` of the source: `v * v`. -/
def sq (v : F) : F := v * v

/-! ## Vector kernels (`vectorization.h`) -/

/-- Modelled from the spec: `f64_sub` of `vectorization.h` (NegateAndShift,
spec 4.1), `y[i] = x - y[i]` for `i < n`, in place. -/
def f64_sub (n : Nat) (x : F) (y : Nat → F) : Nat → F :=
  fun i => if i < n then x - y i else y i

/-- Modelled from the spec: `f64_mul` of `vectorization.h`, the in-place rescaling
`y[i] = x * y[i]` for `i < n` (spec 4.3, "Rescale adjGeno by 1/sqrt(AC2)"). -/
def f64_mul (n : Nat) (x : F) (y : Nat → F) : Nat → F :=
  fun i => if i < n then x * y i else y i

/-- Modelled from the spec: `f64_dot` of `vectorization.h`, the plain dot product
`sum_i x[i] * y[i]` over `i < n` (spec 4.1). -/
def f64_dot (n : Nat) (x y : Nat → F) : F :=
  accum 0 n (fun i => x i * y i)

/-- Modelled from the spec: `f64_dot_sp` of `vectorization.h`, the dot product
weighted by one vector: `(sum x .* y, sum y .* y)` (spec 4.1, 4.2). -/
def f64_dot_sp (n : Nat) (x y : Nat → F) : F × F :=
  (accum 0 n (fun i => x i * y i), accum 0 n (fun i => y i * y i))

/-- Modelled from the spec: `f64_dot_sp2` of `vectorization.h`, the dot product
weighted by two vectors: `(sum x1 .* y, sum x2 .* y .* y)` (spec 4.1, 4.3). -/
def f64_dot_sp2 (n : Nat) (x1 x2 y : Nat → F) : F × F :=
  (accum 0 n (fun i => x1 i * y i), accum 0 n (fun i => x2 i * y i * y i))

/-- Modelled from the spec: `f64_nonzero_index` of `vectorization.h`
(SparseExtractNonzero, spec 4.1): one pass over `x[0..n)` that stores the indices
of the non-zero entries, in increasing order, at the front of the index buffer and
returns their count. -/
def f64_nonzero_index : Nat → (Nat → F) → (Nat → Nat) → Nat × (Nat → Nat)
  | 0, _, i => (0, i)
  | n + 1, x, i =>
    let r := f64_nonzero_index n x i
    if x n ≠ 0 then (r.1 + 1, Function.update r.2 r.1 n) else r

/-- Modelled from the spec: `f64_mul_mat_vec` of `vectorization.h`, the dense
matrix-vector product `p = M x` of an `m`-by-`n` matrix (spec 4.1). -/
def f64_mul_mat_vec (n m : Nat) (x : Nat → Nat → F) (y : Nat → F) (p : Nat → F) :
    Nat → F :=
  fun k => if k < m then accum 0 n (fun i => x k i * y i) else p k

/-- Modelled from the spec: `f64_mul_mat_vec_sp` of `vectorization.h`, the
sparse-restricted matrix-vector product "that only sums contributions from a given
index subset" (spec 4.1): `p[k] = sum_{j < n_idx} x[k, idx[j]] * y[idx[j]]`. -/
def f64_mul_mat_vec_sp (n_idx : Nat) (idx : Nat → Nat) (m : Nat) (x : Nat → Nat → F)
    (y : Nat → F) (p : Nat → F) : Nat → F :=
  fun k => if k < m then accum 0 n_idx (fun j => x k (idx j) * y (idx j)) else p k

/-- Modelled from the spec: `f64_mul_mat_vec_sub` of `vectorization.h`, the
transposed product restricted to an index subset (spec 4.2, "reconstruct
`B = covariateT^T coeff` restricted to the same indices"):
`p[j] = sum_{k < m} x[k, idx[j]] * y[k]` for `j < n`. -/
def f64_mul_mat_vec_sub (n : Nat) (idx : Nat → Nat) (m : Nat) (x : Nat → Nat → F)
    (y : Nat → F) (p : Nat → F) : Nat → F :=
  fun j => if j < n then accum 0 m (fun k => x k (idx j) * y k) else p j

/-- Modelled from the spec: `f64_sub_mul_mat_vec` of `vectorization.h`, the
subtract-dense-product kernel (spec 4.2, `adjGeno = g - projInvCoeffT^T coeff`):
`p[i] = x[i] - sum_{k < m} y[k, i] * z[k]` for `i < n`. -/
def f64_sub_mul_mat_vec (n m : Nat) (x : Nat → F) (y : Nat → Nat → F) (z : Nat → F)
    (p : Nat → F) : Nat → F :=
  fun i => if i < n then x i - accum 0 m (fun k => y k i * z k) else p i

/-- Modelled from the spec: `f64_sum_mat_vec` of `vectorization.h`, the quadratic
form `y^T W y` of an `n`-by-`n` matrix (spec 4.1). -/
def f64_sum_mat_vec (n : Nat) (x : Nat → Nat → F) (y : Nat → F) : F :=
  accum 0 n (fun j => accum 0 n (fun k => y j * x j k * y k))

/-- What `f64_af_ac_impute` hands back: the three outputs `AF`, `AC`, `Num`, the
dosage vector after in-place imputation and the index buffer it has written. -/
structure Imputed (F : Type) where
  AF : F
  AC : F
  Num : Nat
  G : Nat → F
  index : Nat → Nat

/-- The non-missing entries of a raw dosage vector. -/
def observed (ds : List (Option F)) : List F := ds.filterMap id

/-- Modelled from the spec: `f64_af_ac_impute` of `vectorization.h`
(ComputeAFAndImpute, spec 4.1): the allele count is the sum over the non-missing
entries, `AF = AC / (2 Num)` (`0` when nothing is observed), every missing entry is
replaced in place by `2 AF`, and the indices of the non-zero imputed values are
stored in the index buffer.  Cells past the end of the vector read as `0`. -/
def f64_af_ac_impute (ds : List (Option F)) (n : Nat) (buf_idx : Nat → Nat) :
    Imputed F :=
  let AC := (observed ds).sum
  let Num := (observed ds).length
  let AF := if Num = 0 then 0 else AC / (2 * (Num : F))
  let G : Nat → F := fun i => if i < n then (ds.getD i (some 0)).getD (2 * AF) else 0
  { AF := AF, AC := AC, Num := Num, G := G, index := (f64_nonzero_index n G buf_idx).2 }

/-! ## External numerics -/

/-- The arguments of one call of the external solver `Saddle_Prob`. -/
structure SaddleArgs (F : Type) where
  q : F
  m1 : F
  var1 : F
  n_g : Nat
  mu : Nat → F
  g : Nat → F
  cutoff : F

/-- The functions `saige_main.cpp` calls but does not define: `sqrt` of libm,
`Rf_pchisq(x, df, lower, log)` and `Rf_qnorm5(p, mean, sd, lower, log)` of R, and
`Saddle_Prob` of SPAtest, which returns the p-value and the value it leaves in
`converged`. -/
structure Numerics (F : Type) where
  sqrt : F → F
  Rf_pchisq : F → F → Bool → Bool → Option F
  Rf_qnorm5 : Option F → F → F → Bool → Bool → Option F
  Saddle_Prob : SaddleArgs F → Bool → Option F × Bool

/-! ## Module state -/

/-- The read-only globals `threshold_*` and `mod_*`. -/
structure Model (F : Type) where
  threshold_maf : F
  threshold_mac : F
  NSamp : Nat
  NCoeff : Nat
  tau : Nat → F
  y : Nat → F
  mu : Nat → F
  y_mu : Nat → F
  mu2 : Nat → F
  t_XXVX_inv : Nat → Nat → F
  XV : Nat → Nat → F
  t_XVX_inv_XV : Nat → Nat → F
  XVX : Nat → Nat → F
  t_X : Nat → Nat → F
  S_a : Nat → F
  varRatio : F

/-- The scratch globals `buf_*`. -/
structure Buffers (F : Type) where
  coeff : Nat → F
  adj_g : Nat → F
  index : Nat → Nat
  B : Nat → F
  g_tilde : Nat → F
  tmp : Nat → F

/-! ## The association tests -/

/-- What a branch of a test leaves behind: the score `S` (`Tstat` for the
quantitative test), its variance `var1`, the unadjusted p-value, the effect
estimate and the scratch buffers. -/
structure PathOut (F : Type) where
  S : F
  var1 : F
  pval : Option F
  beta : F
  buf : Buffers F

/-- The vector `ans` of `saige_score_test_quant`, by entry. -/
structure QuantAns (F : Type) where
  AF : F
  AC : F
  Num : Nat
  beta : F
  SE : Option F
  pval : Option F
deriving DecidableEq

/-- The vector `ans` of `saige_score_test_bin`, by entry. -/
structure BinAns (F : Type) where
  AF : F
  AC : F
  Num : Nat
  beta : F
  SE : Option F
  pval : Option F
  pval_noadj : Option F
  converged : Bool
deriving DecidableEq

/-- The `NumericVector ans(6)` as R receives it (`none` is a non-finite cell). -/
def QuantAns.toVector (a : QuantAns F) : List (Option F) :=
  [some a.AF, some a.AC, some (a.Num : F), some a.beta, a.SE, a.pval]

/-- The `NumericVector ans(8)` as R receives it; `ans[7] = converged ? 1 : 0`. -/
def BinAns.toVector (a : BinAns F) : List (Option F) :=
  [some a.AF, some a.AC, some (a.Num : F), some a.beta, a.SE, a.pval, a.pval_noadj,
    some (if a.converged then 1 else 0)]

/-- The outcome of `saige_score_test_quant`: the returned value (`none` is
`R_NilValue`), the dosage vector as the call leaves it, and the scratch buffers. -/
structure QuantOut (F : Type) where
  ans : Option (QuantAns F)
  G : Nat → F
  buf : Buffers F

/-- The outcome of `saige_score_test_bin`; `spa_calls` lists the calls of
`Saddle_Prob` the run has made. -/
structure BinOut (F : Type) where
  ans : Option (BinAns F)
  G : Nat → F
  buf : Buffers F
  spa_calls : List (SaddleArgs F)

/-- The threshold gate of both tests:
`Num>0 && maf>0 && maf>=threshold_maf && mac>=threshold_mac`. -/
def gate (M : Model F) (Num : Nat) (maf mac : F) : Prop :=
  0 < Num ∧ 0 < maf ∧ M.threshold_maf ≤ maf ∧ M.threshold_mac ≤ mac

instance (M : Model F) (Num : Nat) (maf mac : F) : Decidable (gate M Num maf mac) := by
  unfold gate; infer_instance

/-- The state of a per-variant call after its common prologue. -/
structure Prep (F : Type) where
  imp : Imputed F
  maf : F
  mac : F
  minus : Bool
  G : Nat → F
  buf : Buffers F

/-- The prologue shared by both tests (lines 119-131 and 213-225): imputation,
`maf`, `mac`, the flag `minus = (AF > 0.5)` and the vector `G` flipped by
`f64_sub(mod_NSamp, 2, G)` when `minus` holds (the flip is used only behind the
gate).  The arithmetic is exact: here `1 - (1 - AF) = AF`, which the rounding of
doubles at line 126 does not guarantee (there `1 - 0.9 < 0.1`). -/
def preprocess (M : Model F) (b : Buffers F) (dosage : List (Option F)) : Prep F :=
  let num_samp := dosage.length
  let imp := f64_af_ac_impute dosage num_samp b.index
  let minus : Bool := decide (0.5 < imp.AF)
  { imp := imp
    maf := min imp.AF (1 - imp.AF)
    mac := min imp.AC (2 * (imp.Num : F) - imp.AC)
    minus := minus
    G := if minus then f64_sub M.NSamp 2 imp.G else imp.G
    buf := { b with index := imp.index } }

/-- The `if (maf > -0.05)` branch of `saige_score_test_quant` (lines 139-170). -/
def quant_sparse (E : Numerics F) (M : Model F) (b : Buffers F) (G : Nat → F)
    (mac : F) (minus : Bool) : PathOut F :=
  let inv_sqrt_mac := 1 / E.sqrt mac
  let inv_mac := 1 / mac
  let nz := f64_nonzero_index M.NSamp G b.index
  let n_nonzero := nz.1
  let buf_index := nz.2
  let buf_coeff := f64_mul_mat_vec_sp n_nonzero buf_index M.NCoeff M.t_XVX_inv_XV G b.coeff
  let buf_B := f64_mul_mat_vec_sub n_nonzero buf_index M.NCoeff M.t_X buf_coeff b.B
  let buf_g_tilde : Nat → F :=
    fun i => if i < n_nonzero then G (buf_index i) - buf_B i else b.g_tilde i
  let var2 := accum (f64_sum_mat_vec M.NCoeff M.XVX buf_coeff) n_nonzero
    (fun i => sq (buf_g_tilde i) - sq (buf_B i))
  let var1 := var2 * inv_mac * M.varRatio
  let S1 := accum 0 n_nonzero (fun i => M.y_mu (buf_index i) * buf_g_tilde i) * inv_sqrt_mac
  let buf_tmp := f64_mul_mat_vec_sp n_nonzero buf_index M.NCoeff M.t_X M.y_mu b.tmp
  let S2 := accum 0 M.NCoeff (fun i => (buf_tmp i - M.S_a i) * buf_coeff i)
  let Tstat := (S1 + S2) / M.tau 0
  { S := Tstat
    var1 := var1
    pval := E.Rf_pchisq (Tstat * Tstat / var1) 1 false false
    beta := (if minus then -1 else 1) * Tstat / var1 * inv_sqrt_mac
    buf := { coeff := buf_coeff, adj_g := b.adj_g, index := buf_index, B := buf_B,
             g_tilde := buf_g_tilde, tmp := buf_tmp } }

/-- The `else` branch of `saige_score_test_quant` (lines 173-190). -/
def quant_dense (E : Numerics F) (M : Model F) (b : Buffers F) (G : Nat → F)
    (mac : F) (minus : Bool) : PathOut F :=
  let inv_sqrt_mac := 1 / E.sqrt mac
  let inv_mac := 1 / mac
  let buf_coeff := f64_mul_mat_vec M.NSamp M.NCoeff M.XV G b.coeff
  let buf_adj_g := f64_sub_mul_mat_vec M.NSamp M.NCoeff G M.t_XXVX_inv buf_coeff b.adj_g
  let d := f64_dot_sp M.NSamp M.y_mu buf_adj_g
  let Tstat := d.1 * inv_sqrt_mac / M.tau 0
  let var := d.2 * (inv_mac * M.varRatio)
  { S := Tstat
    var1 := var
    pval := E.Rf_pchisq (Tstat * Tstat / var) 1 false false
    beta := (if minus then -1 else 1) * Tstat / var * inv_sqrt_mac
    buf := { b with coeff := buf_coeff, adj_g := buf_adj_g } }

/-- The branch statement `if (maf > -0.05) ... else ...` of the quantitative test
(lines 137-191). -/
def quant_path (E : Numerics F) (M : Model F) (p : Prep F) : PathOut F :=
  if -0.05 < p.maf then quant_sparse E M p.buf p.G p.mac p.minus
  else quant_dense E M p.buf p.G p.mac p.minus

/-- The function `saige_score_test_quant` (lines 114-204). -/
def saige_score_test_quant (E : Numerics F) (M : Model F) (b : Buffers F)
    (dosage : List (Option F)) : QuantOut F :=
  let p := preprocess M b dosage
  if gate M p.imp.Num p.maf p.mac then
    let r := quant_path E M p
    let SE := (E.Rf_qnorm5 (r.pval.map (fun v => v / 2)) 0 1 true false).map
      (fun z => |r.beta / z|)
    { ans := some { AF := p.imp.AF, AC := p.imp.AC, Num := p.imp.Num, beta := r.beta,
                    SE := SE, pval := r.pval }
      G := p.G
      buf := r.buf }
  else
    { ans := none, G := p.imp.G, buf := p.buf }

/-- The `if (maf < 0.05)` branch of `saige_score_test_bin` (lines 230-260). -/
def bin_sparse (E : Numerics F) (M : Model F) (b : Buffers F) (G : Nat → F)
    (minus : Bool) : PathOut F :=
  let nz := f64_nonzero_index M.NSamp G b.index
  let n_nonzero := nz.1
  let buf_index := nz.2
  let buf_coeff := f64_mul_mat_vec_sp n_nonzero buf_index M.NCoeff M.t_XVX_inv_XV G b.coeff
  let buf_B := f64_mul_mat_vec_sub n_nonzero buf_index M.NCoeff M.t_X buf_coeff b.B
  let buf_g_tilde : Nat → F :=
    fun i => if i < n_nonzero then G (buf_index i) - buf_B i else b.g_tilde i
  let var2 := accum (f64_sum_mat_vec M.NCoeff M.XVX buf_coeff) n_nonzero
    (fun i => (sq (buf_g_tilde i) - sq (buf_B i)) * M.mu2 (buf_index i))
  let var1 := var2 * M.varRatio
  let S1 := accum 0 n_nonzero (fun i => M.y_mu (buf_index i) * buf_g_tilde i)
  let buf_tmp := f64_mul_mat_vec_sp n_nonzero buf_index M.NCoeff M.t_X M.y_mu b.tmp
  let S2 := accum 0 M.NCoeff (fun i => (buf_tmp i - M.S_a i) * buf_coeff i)
  let S := S1 + S2
  { S := S
    var1 := var1
    pval := E.Rf_pchisq (S * S / var1) 1 false false
    beta := (if minus then -1 else 1) * S / var1
    buf := { coeff := buf_coeff, adj_g := b.adj_g, index := buf_index, B := buf_B,
             g_tilde := buf_g_tilde, tmp := buf_tmp } }

/-- The `else` branch of `saige_score_test_bin` (lines 263-277). -/
def bin_dense (E : Numerics F) (M : Model F) (b : Buffers F) (G : Nat → F)
    (minus : Bool) : PathOut F :=
  let buf_coeff := f64_mul_mat_vec M.NSamp M.NCoeff M.XV G b.coeff
  let buf_adj_g := f64_sub_mul_mat_vec M.NSamp M.NCoeff G M.t_XXVX_inv buf_coeff b.adj_g
  let d := f64_dot_sp2 M.NSamp M.y_mu M.mu2 buf_adj_g
  let S := d.1
  let var := d.2 * M.varRatio
  { S := S
    var1 := var
    pval := E.Rf_pchisq (S * S / var) 1 false false
    beta := (if minus then -1 else 1) * S / var
    buf := { b with coeff := buf_coeff, adj_g := buf_adj_g } }

/-- What the recalibration block of `saige_score_test_bin` computes. -/
structure SpaOut (F : Type) where
  Tstat : F
  var1 : F
  beta : F
  pval : Option F
  converged : Bool
  adj_g : Nat → F
  call : SaddleArgs F

/-- The recalibration block of `saige_score_test_bin` (lines 286-301), entered with
`converged = true`. -/
def bin_spa (E : Numerics F) (M : Model F) (adj_g : Nat → F) (AC : F) (Num : Nat)
    (minus : Bool) : SpaOut F :=
  let AC2 := if minus then 2 * (Num : F) - AC else AC
  let buf_adj_g := f64_mul M.NSamp (1 / E.sqrt AC2) adj_g
  let q := f64_dot M.NSamp M.y buf_adj_g
  let d := f64_dot_sp2 M.NSamp M.mu M.mu2 buf_adj_g
  let m1 := d.1
  let var2 := d.2
  let var1 := var2 * M.varRatio
  let Tstat := q - m1
  let qtilde := Tstat / E.sqrt var1 * E.sqrt var2 + m1
  let call : SaddleArgs F :=
    { q := qtilde, m1 := m1, var1 := var2, n_g := M.NSamp, mu := M.mu, g := buf_adj_g,
      cutoff := 2 }
  let r := E.Saddle_Prob call true
  { Tstat := Tstat
    var1 := var1
    beta := (Tstat / var1) / E.sqrt AC2
    pval := r.1
    converged := r.2
    adj_g := buf_adj_g
    call := call }

/-- The test `R_FINITE(pval_noadj) && pval_noadj <= 0.05`. -/
def needs_spa (pval_noadj : Option F) : Bool :=
  match pval_noadj with
  | some p => decide (p ≤ 0.05)
  | none => false

/-- The branch statement `if (maf < 0.05) ... else ...` of the binary test
(lines 228-278). -/
def bin_path (E : Numerics F) (M : Model F) (p : Prep F) : PathOut F :=
  if p.maf < 0.05 then bin_sparse E M p.buf p.G p.minus
  else bin_dense E M p.buf p.G p.minus

/-- The function `saige_score_test_bin` (lines 208-316). -/
def saige_score_test_bin (E : Numerics F) (M : Model F) (b : Buffers F)
    (dosage : List (Option F)) : BinOut F :=
  let p := preprocess M b dosage
  if gate M p.imp.Num p.maf p.mac then
    let r := bin_path E M p
    let pval_noadj := r.pval
    if needs_spa pval_noadj then
      let s := bin_spa E M r.buf.adj_g p.imp.AC p.imp.Num p.minus
      let SE := (E.Rf_qnorm5 (s.pval.map (fun v => v / 2)) 0 1 true false).map
        (fun z => |s.beta / z|)
      { ans := some { AF := p.imp.AF, AC := p.imp.AC, Num := p.imp.Num, beta := s.beta,
                      SE := SE, pval := s.pval, pval_noadj := pval_noadj,
                      converged := s.converged }
        G := p.G
        buf := { r.buf with adj_g := s.adj_g }
        spa_calls := [s.call] }
    else
      let SE := (E.Rf_qnorm5 (pval_noadj.map (fun v => v / 2)) 0 1 true false).map
        (fun z => |r.beta / z|)
      { ans := some { AF := p.imp.AF, AC := p.imp.AC, Num := p.imp.Num, beta := r.beta,
                      SE := SE, pval := pval_noadj, pval_noadj := pval_noadj,
                      converged := true }
        G := p.G
        buf := r.buf
        spa_calls := [] }
  else
    { ans := none, G := p.imp.G, buf := p.buf, spa_calls := [] }

/-! ## Model ingestion -/

/-- An R object as `saige_score_test_init` sees it: a numeric vector with its
`dim` attribute when it is a matrix, an integer vector, or `NULL`. -/
inductive RObj (F : Type) where
  | real (v : List F) (dim : Option (Nat × Nat))
  | int (v : List Int)
  | null

/-- An R list with names, the `model` argument. -/
abbrev RList (F : Type) := List (String × RObj F)

/-- The operator `M["name"]` of Rcpp: an R error when no element has the name. -/
def RList.get (M : RList F) (name : String) : Except String (RObj F) :=
  match M.lookup name with
  | some x => .ok x
  | none => .error ("Index out of bounds: [index=" ++ name ++ "]")

/-- The function `Rf_length`. -/
def Rf_length : RObj F → Nat
  | .real v _ => v.length
  | .int v => v.length
  | .null => 0

/-- The function `Rf_asReal`: the first element as a double; `none` is `NA_REAL`. -/
def Rf_asReal : RObj F → Option F
  | .real (x :: _) _ => some x
  | .int (x :: _) => some (x : F)
  | _ => none

/-- The accessor `REAL`: the data pointer of a numeric vector (cells past its end
read as `0`), an R error for any other object. -/
def REAL : RObj F → Except String (Nat → F)
  | .real v _ => .ok (fun i => v.getD i 0)
  | _ => .error "REAL() can only be applied to a numeric"

/-- The accessor `INTEGER`: the data pointer of an integer vector, an R error for
any other object. -/
def INTEGER : RObj F → Except String (Nat → Nat)
  | .int v => .ok (fun i => (v.getD i 0).toNat)
  | _ => .error "INTEGER() can only be applied to an integer"

/-- The expression `NumericMatrix(x).nrow()`: an R error unless `x` is a numeric
matrix. -/
def nrow : RObj F → Except String Nat
  | .real _ (some d) => .ok d.1
  | _ => .error "not a matrix"

/-- A K-row matrix stored by columns, read through its data pointer. -/
def colMajor (K : Nat) (x : Nat → F) : Nat → Nat → F :=
  fun k i => x (k + K * i)

/-- The statement `if (!R_FINITE(t)) t = -1` of lines 81 and 83. -/
def finite_or_off (t : Option F) : F := t.getD (-1)

/-- The function `saige_score_test_init` (lines 75-107): the module state it
installs, or the R error it raises. -/
def saige_score_test_init (M : RList F) : Except String (Model F × Buffers F) := do
  let threshold_maf := finite_or_off (Rf_asReal (← M.get "maf"))
  let threshold_mac := finite_or_off (Rf_asReal (← M.get "mac"))
  let NSamp := Rf_length (← M.get "y")
  let NCoeff ← nrow (← M.get "XV")
  let tau ← REAL (← M.get "tau")
  let y ← REAL (← M.get "y")
  let mu ← REAL (← M.get "mu")
  let y_mu ← REAL (← M.get "y_mu")
  let mu2 ← REAL (← M.get "mu2")
  let t_XXVX_inv ← REAL (← M.get "t_XXVX_inv")
  let XV ← REAL (← M.get "XV")
  let t_XVX_inv_XV ← REAL (← M.get "t_XVX_inv_XV")
  let XVX ← REAL (← M.get "XVX")
  let t_X ← REAL (← M.get "t_X")
  let S_a ← REAL (← M.get "S_a")
  let varRatio := (Rf_asReal (← M.get "var.ratio")).getD 0
  let buf_coeff ← REAL (← M.get "buf_coeff")
  let buf_adj_g ← REAL (← M.get "buf_adj_g")
  let buf_index ← INTEGER (← M.get "buf_index")
  let buf_B ← REAL (← M.get "buf_B")
  let buf_g_tilde ← REAL (← M.get "buf_g_tilde")
  let buf_tmp ← REAL (← M.get "buf_tmp")
  return ({ threshold_maf := threshold_maf, threshold_mac := threshold_mac,
            NSamp := NSamp, NCoeff := NCoeff, tau := tau, y := y, mu := mu,
            y_mu := y_mu, mu2 := mu2,
            t_XXVX_inv := colMajor NCoeff t_XXVX_inv, XV := colMajor NCoeff XV,
            t_XVX_inv_XV := colMajor NCoeff t_XVX_inv_XV, XVX := colMajor NCoeff XVX,
            t_X := colMajor NCoeff t_X, S_a := S_a, varRatio := varRatio },
          { coeff := buf_coeff, adj_g := buf_adj_g, index := buf_index, B := buf_B,
            g_tilde := buf_g_tilde, tmp := buf_tmp })

open Finset

/-! ## Definitions used in the statements -/

/-- The exclusion rule of spec 4.2 step 1, in the words of the spec: `N <= 0` or
`maf <= 0` or `maf < mafThreshold` or `mac < macThreshold`, for
`maf = min(AF, 1-AF)` and `mac = min(AC, 2N-AC)`. -/
def excluded (M : Model F) (AF AC : F) (N : Nat) : Prop :=
  N ≤ 0 ∨ min AF (1 - AF) ≤ 0 ∨ min AF (1 - AF) < M.threshold_maf ∨
    min AC (2 * (N : F) - AC) < M.threshold_mac

/-- The projection coefficients of a dosage vector, `t_XVX_inv_XV G`, summed over
every sample. -/
def projCoeff (M : Model F) (G : Nat → F) (k : Nat) : F :=
  ∑ i in range M.NSamp, M.t_XVX_inv_XV k i * G i

/-- The covariate part of a dosage vector at sample `i`, `(t_X^T projCoeff) i`. -/
def projGeno (M : Model F) (G : Nat → F) (i : Nat) : F :=
  ∑ k in range M.NCoeff, M.t_X k i * projCoeff M G k

/-- The adjusted genotype of the dense path at sample `i`,
`G i - (t_XXVX_inv^T (XV G)) i`. -/
def adjGeno (M : Model F) (G : Nat → F) (i : Nat) : F :=
  G i - ∑ k in range M.NCoeff, M.t_XXVX_inv k i * ∑ j in range M.NSamp, M.XV k j * G j

/-- The vector `tmp` of the sparse path: the covariate-residual product summed over
the non-zero positions of `G` only. -/
def tmpRestricted (M : Model F) (G : Nat → F) (k : Nat) : F :=
  ∑ i in (range M.NSamp).filter (fun i => G i ≠ 0), M.t_X k i * M.y_mu i

/-- The dense product of spec 4.2, `tmp = covariateT residual` over every sample. -/
def tmpDense (M : Model F) (k : Nat) : F :=
  ∑ i in range M.NSamp, M.t_X k i * M.y_mu i

/-- The identities that tie the matrices of a fitted null model together, for a
design matrix `X = t_X^T` and weights `mu2`: `XVX = X^T diag(mu2) X`,
`S_a = X^T (y - mu)`, and `XXVX_inv XV = X XVX_inv_XV`. -/
def Model.Consistent (M : Model F) : Prop :=
  (∀ j, j < M.NCoeff → ∀ k, k < M.NCoeff →
      M.XVX j k = ∑ i in range M.NSamp, M.mu2 i * M.t_X j i * M.t_X k i) ∧
  (∀ k, k < M.NCoeff → M.S_a k = ∑ i in range M.NSamp, M.t_X k i * M.y_mu i) ∧
  (∀ i, i < M.NSamp → ∀ j, j < M.NSamp →
      ∑ k in range M.NCoeff, M.t_XXVX_inv k i * M.XV k j =
        ∑ k in range M.NCoeff, M.t_X k i * M.t_XVX_inv_XV k j)

instance (M : Model F) : Decidable M.Consistent := by
  unfold Model.Consistent; infer_instance

/-- The contract of the array argument of the solver: `Saddle_Prob` is handed the
length `n_g` and reads the cells `g[0..n_g)` only, so two calls whose other arguments
are equal and whose `g` agree on those cells return the same. -/
def Numerics.ReadsFirstCells (E : Numerics F) : Prop :=
  ∀ (x y : SaddleArgs F) (cv : Bool), x.q = y.q → x.m1 = y.m1 → x.var1 = y.var1 →
    x.n_g = y.n_g → x.mu = y.mu → x.cutoff = y.cutoff →
    (∀ i, i < x.n_g → x.g i = y.g i) → E.Saddle_Prob x cv = E.Saddle_Prob y cv

/-- The allele-swapped coding `2 - g` of a raw dosage vector; a missing entry stays
missing. -/
def complement (ds : List (Option F)) : List (Option F) :=
  ds.map (Option.map (fun x => 2 - x))

/-- The list holds a numeric vector under the name. -/
def RList.hasReal (M : RList F) (name : String) : Prop :=
  ∃ v d, M.lookup name = some (.real v d)

/-- What `saige_score_test_init` requires of its argument: the three scalars are
present, `XV` is a numeric matrix, `buf_index` is an integer vector and every other
field is a numeric vector.  No length or shape is compared with another. -/
def RList.WellTyped (M : RList F) : Prop :=
  (∃ x, M.lookup "maf" = some x) ∧ (∃ x, M.lookup "mac" = some x) ∧
  (∃ x, M.lookup "var.ratio" = some x) ∧
  (∃ v d, M.lookup "XV" = some (.real v (some d))) ∧
  (∃ v, M.lookup "buf_index" = some (.int v)) ∧
  ∀ name ∈ ["tau", "y", "mu", "y_mu", "mu2", "t_XXVX_inv", "t_XVX_inv_XV", "XVX", "t_X",
    "S_a", "buf_coeff", "buf_adj_g", "buf_B", "buf_g_tilde", "buf_tmp"], M.hasReal name

/-! ## Concrete inputs -/

/-- A list read as an array; cells past the end read as `0`. -/
def vecOf (l : List ℚ) : Nat → ℚ := fun i => l.getD i 0

/-- A list of rows read as a matrix; cells outside read as `0`. -/
def matOf (l : List (List ℚ)) : Nat → Nat → ℚ := fun k i => (l.getD k []).getD i 0

/-- Stand-ins for the external numerics on `ℚ`: a square root that is exact on `1`
and `4` (and `1` elsewhere), a two-valued stand-in for the chi-square upper tail
that lies on the same side of `0.05` as `Rf_pchisq(x, 1, FALSE, FALSE)` (whose 5%
point is 3.8415), a constant normal quantile and a solver that reports a fixed
p-value and leaves `converged` as it finds it. -/
def stubNumerics : Numerics ℚ :=
  { sqrt := fun x => if x = 4 then 2 else 1
    Rf_pchisq := fun x _ _ _ => if 3.8415 ≤ x then some 0.01 else some 0.5
    Rf_qnorm5 := fun p _ _ _ _ => p.map (fun _ => -1)
    Saddle_Prob := fun _ c => (some 0.001, c) }

/-- Scratch buffers filled with zeros. -/
def zeroBuffers : Buffers ℚ :=
  { coeff := fun _ => 0, adj_g := fun _ => 0, index := fun _ => 0, B := fun _ => 0,
    g_tilde := fun _ => 0, tmp := fun _ => 0 }

/-- A four-sample logistic null model with one covariate `x = (1, 1, 0, 0)` and no
intercept, fitted to `y = (1, 0, 1, 1)`: the fitted coefficient is `0`, so
`mu = 1/2` and `mu2 = 1/4` on every sample; filters off. -/
def modelNoIntercept : Model ℚ :=
  { threshold_maf := -1, threshold_mac := -1, NSamp := 4, NCoeff := 1
    tau := vecOf [1, 0]
    y := vecOf [1, 0, 1, 1]
    mu := fun _ => 1 / 2
    y_mu := vecOf [1 / 2, -1 / 2, 1 / 2, 1 / 2]
    mu2 := fun _ => 1 / 4
    t_XXVX_inv := matOf [[2, 2, 0, 0]]
    XV := matOf [[1 / 4, 1 / 4, 0, 0]]
    t_XVX_inv_XV := matOf [[1 / 2, 1 / 2, 0, 0]]
    XVX := matOf [[1 / 2]]
    t_X := matOf [[1, 1, 0, 0]]
    S_a := vecOf [0]
    varRatio := 1 }

/-- An `n`-sample binary model with an intercept only and one case, the first
sample: `y = (1, 0, ..., 0)`, `mu = 1/n`, the matrices of the logistic null fit,
filters off. -/
def interceptModel (n : Nat) : Model ℚ :=
  { threshold_maf := -1, threshold_mac := -1, NSamp := n, NCoeff := 1
    tau := vecOf [1, 0]
    y := fun i => if i = 0 then 1 else 0
    mu := fun _ => 1 / n
    y_mu := fun i => (if i = 0 then 1 else 0) - 1 / n
    mu2 := fun _ => (n - 1) / (n * n)
    t_XXVX_inv := fun _ _ => n / (n - 1)
    XV := fun _ _ => (n - 1) / (n * n)
    t_XVX_inv_XV := fun _ _ => 1 / n
    XVX := fun _ _ => (n - 1) / n
    t_X := fun _ _ => 1
    S_a := fun _ => 0
    varRatio := 1 }

/-- A model list whose fields all have the expected storage type but whose shapes
disagree: `y` has two entries, `mu` one, `y_mu` three, `XV` is 1-by-2 and `t_X` is
3-by-1, and every scratch buffer is empty. -/
def misshapenModel : RList ℚ :=
  [("maf", .real [0] none), ("mac", .real [0] none), ("var.ratio", .real [1] none),
   ("tau", .real [1, 0] none),
   ("y", .real [1, 0] none), ("mu", .real [1 / 2] none),
   ("y_mu", .real [1 / 2, -1 / 2, 0] none), ("mu2", .real [] none),
   ("t_XXVX_inv", .real [2, 2] (some (1, 2))), ("XV", .real [1 / 4, 1 / 4] (some (1, 2))),
   ("t_XVX_inv_XV", .real [1 / 2] none), ("XVX", .real [1 / 2] (some (1, 1))),
   ("t_X", .real [1, 1, 1] (some (3, 1))), ("S_a", .real [0, 0] none),
   ("buf_coeff", .real [] none), ("buf_adj_g", .real [] none), ("buf_index", .int []),
   ("buf_B", .real [] none), ("buf_g_tilde", .real [] none), ("buf_tmp", .real [] none)]

/-- The model `modelNoIntercept` with its score adjustment `S_a` set to `1`, so that
`S_a` is no longer `X^T (y - mu)`. -/
def inconsistentModel : Model ℚ := { modelNoIntercept with S_a := fun _ => 1 }

/-- One heterozygous carrier, the first sample, among `n` samples. -/
def oneCarrier (n : Nat) : List (Option ℚ) := some 1 :: List.replicate (n - 1) (some 0)

/-- Four samples: one heterozygous carrier, one missing entry, two non-carriers. -/
def carrierAndMissing : List (Option ℚ) := [some 1, none, some 0, some 0]

/-- Scratch buffers in which an earlier call has left `x` in the first cell of
`buf_adj_g`. -/
def staleBuffers (x : ℚ) : Buffers ℚ :=
  { zeroBuffers with adj_g := fun i => if i = 0 then x else 0 }

/-! ## Theorems -/

/-! ### Loops and kernels -/

theorem accum_eq_sum (init : F) (n : Nat) (f : Nat → F) :
    accum init n f = init + ∑ i in range n, f i := by
  induction n with
  | zero => simp [accum]
  | succ n ih => rw [accum, ih, sum_range_succ, add_assoc]

theorem accum_congr (init : F) (n : Nat) (f g : Nat → F) (h : ∀ i, i < n → f i = g i) :
    accum init n f = accum init n g := by
  rw [accum_eq_sum, accum_eq_sum]
  congr 1
  exact sum_congr rfl (fun i hi => h i (mem_range.mp hi))

/-- The cells the index pass fills: summing any `h` over them is summing `h` over the
non-zero positions of `x`. -/
theorem sum_nonzero_index (n : Nat) (x : Nat → F) (idx : Nat → Nat) (h : Nat → F) :
    ∑ j in range (f64_nonzero_index n x idx).1, h ((f64_nonzero_index n x idx).2 j) =
      ∑ i in range n, if x i ≠ 0 then h i else 0 := by
  induction n with
  | zero => simp [f64_nonzero_index]
  | succ n ih =>
    rw [sum_range_succ (fun i => if x i ≠ 0 then h i else 0), ← ih]
    by_cases hx : x n = 0
    · simp [f64_nonzero_index, hx]
    · simp only [f64_nonzero_index, ne_eq, hx, not_false_eq_true, if_true, sum_range_succ,
        Function.update_same]
      congr 1
      refine sum_congr rfl (fun j hj => ?_)
      rw [Function.update_noteq (ne_of_lt (mem_range.mp hj))]

theorem mul_mat_vec_sp_nonzero (n : Nat) (x : Nat → F) (idx : Nat → Nat) (m : Nat)
    (A : Nat → Nat → F) (y p : Nat → F) (k : Nat) (hk : k < m) :
    f64_mul_mat_vec_sp (f64_nonzero_index n x idx).1 (f64_nonzero_index n x idx).2 m A y p k =
      ∑ i in (range n).filter (fun i => x i ≠ 0), A k i * y i := by
  simp only [f64_mul_mat_vec_sp, hk, if_true, accum_eq_sum, zero_add]
  rw [sum_nonzero_index n x idx (fun i => A k i * y i), sum_filter]

theorem sum_filter_ne_zero_mul (n : Nat) (x : Nat → F) (c : Nat → F) :
    ∑ i in (range n).filter (fun i => x i ≠ 0), c i * x i = ∑ i in range n, c i * x i := by
  rw [sum_filter]
  refine sum_congr rfl (fun i _ => ?_)
  by_cases h : x i = 0 <;> simp [h]

/-- The coefficient vector of the sparse path is the full projection. -/
theorem sparse_coeff_eq (M : Model F) (G : Nat → F) (idx : Nat → Nat) (p : Nat → F)
    (k : Nat) (hk : k < M.NCoeff) :
    f64_mul_mat_vec_sp (f64_nonzero_index M.NSamp G idx).1 (f64_nonzero_index M.NSamp G idx).2
      M.NCoeff M.t_XVX_inv_XV G p k = projCoeff M G k := by
  rw [mul_mat_vec_sp_nonzero _ _ _ _ _ _ _ _ hk, sum_filter_ne_zero_mul, projCoeff]

/-- The vector `B` of the sparse path at a filled cell. -/
theorem sparse_B_eq (M : Model F) (G : Nat → F) (idx : Nat → Nat) (p q : Nat → F)
    (j : Nat) (hj : j < (f64_nonzero_index M.NSamp G idx).1) :
    f64_mul_mat_vec_sub (f64_nonzero_index M.NSamp G idx).1 (f64_nonzero_index M.NSamp G idx).2
      M.NCoeff M.t_X
      (f64_mul_mat_vec_sp (f64_nonzero_index M.NSamp G idx).1
        (f64_nonzero_index M.NSamp G idx).2 M.NCoeff M.t_XVX_inv_XV G p) q j =
      projGeno M G ((f64_nonzero_index M.NSamp G idx).2 j) := by
  simp only [f64_mul_mat_vec_sub, hj, if_true, accum_eq_sum, zero_add, projGeno]
  refine sum_congr rfl (fun k hk => ?_)
  rw [sparse_coeff_eq M G idx p k (mem_range.mp hk)]

/-- The adjusted genotype the dense path stores, at a sample. -/
theorem dense_adj_eq (M : Model F) (G c a : Nat → F) (i : Nat) (hi : i < M.NSamp) :
    f64_sub_mul_mat_vec M.NSamp M.NCoeff G M.t_XXVX_inv
      (f64_mul_mat_vec M.NSamp M.NCoeff M.XV G c) a i = adjGeno M G i := by
  simp only [f64_sub_mul_mat_vec, hi, if_true, accum_eq_sum, zero_add, adjGeno]
  congr 1
  refine sum_congr rfl (fun k hk => ?_)
  simp only [f64_mul_mat_vec, mem_range.mp hk, if_true, accum_eq_sum, zero_add]

/-! ### The branches in closed form -/

/-- The score of the binary sparse path, written over all samples. -/
theorem bin_sparse_S (E : Numerics F) (M : Model F) (b : Buffers F) (G : Nat → F)
    (minus : Bool) :
    (bin_sparse E M b G minus).S =
      ∑ i in (range M.NSamp).filter (fun i => G i ≠ 0), M.y_mu i * (G i - projGeno M G i) +
      ∑ k in range M.NCoeff, (tmpRestricted M G k - M.S_a k) * projCoeff M G k := by
  simp only [bin_sparse, accum_eq_sum, zero_add]
  congr 1
  · rw [sum_filter, ← sum_nonzero_index M.NSamp G b.index
      (fun i => M.y_mu i * (G i - projGeno M G i))]
    refine sum_congr rfl (fun j hj => ?_)
    rw [if_pos (mem_range.mp hj), sparse_B_eq M G b.index b.coeff b.B j (mem_range.mp hj)]
  · refine sum_congr rfl (fun k hk => ?_)
    rw [sparse_coeff_eq M G b.index b.coeff k (mem_range.mp hk),
      mul_mat_vec_sp_nonzero _ _ _ _ _ _ _ _ (mem_range.mp hk), tmpRestricted]

/-- The variance of the binary sparse path, written over all samples. -/
theorem bin_sparse_var1 (E : Numerics F) (M : Model F) (b : Buffers F) (G : Nat → F)
    (minus : Bool) :
    (bin_sparse E M b G minus).var1 =
      (∑ j in range M.NCoeff, ∑ k in range M.NCoeff,
          projCoeff M G j * M.XVX j k * projCoeff M G k +
        ∑ i in (range M.NSamp).filter (fun i => G i ≠ 0),
          ((G i - projGeno M G i) * (G i - projGeno M G i) -
            projGeno M G i * projGeno M G i) * M.mu2 i) * M.varRatio := by
  simp only [bin_sparse, accum_eq_sum, zero_add, f64_sum_mat_vec, sq]
  congr 2
  · refine sum_congr rfl (fun j hj => sum_congr rfl (fun k hk => ?_))
    rw [sparse_coeff_eq M G b.index b.coeff j (mem_range.mp hj),
      sparse_coeff_eq M G b.index b.coeff k (mem_range.mp hk)]
  · rw [sum_filter, ← sum_nonzero_index M.NSamp G b.index
      (fun i => ((G i - projGeno M G i) * (G i - projGeno M G i) -
            projGeno M G i * projGeno M G i) * M.mu2 i)]
    refine sum_congr rfl (fun j hj => ?_)
    rw [if_pos (mem_range.mp hj), sparse_B_eq M G b.index b.coeff b.B j (mem_range.mp hj)]

theorem bin_sparse_beta (E : Numerics F) (M : Model F) (b : Buffers F) (G : Nat → F)
    (minus : Bool) :
    (bin_sparse E M b G minus).beta =
      (if minus then -1 else 1) * (bin_sparse E M b G minus).S /
        (bin_sparse E M b G minus).var1 := rfl

theorem bin_sparse_indep (E : Numerics F) (M : Model F) (b c : Buffers F) (G : Nat → F)
    (m n : Bool) :
    (bin_sparse E M b G m).S = (bin_sparse E M c G n).S ∧
    (bin_sparse E M b G m).var1 = (bin_sparse E M c G n).var1 := by
  simp only [bin_sparse_S, bin_sparse_var1, and_self]

/-- The score of the binary dense path. -/
theorem bin_dense_S (E : Numerics F) (M : Model F) (b : Buffers F) (G : Nat → F)
    (minus : Bool) :
    (bin_dense E M b G minus).S = ∑ i in range M.NSamp, M.y_mu i * adjGeno M G i := by
  simp only [bin_dense, f64_dot_sp2, accum_eq_sum, zero_add]
  refine sum_congr rfl (fun i hi => ?_)
  rw [dense_adj_eq M G b.coeff b.adj_g i (mem_range.mp hi)]

/-- The variance of the binary dense path. -/
theorem bin_dense_var1 (E : Numerics F) (M : Model F) (b : Buffers F) (G : Nat → F)
    (minus : Bool) :
    (bin_dense E M b G minus).var1 =
      (∑ i in range M.NSamp, M.mu2 i * adjGeno M G i * adjGeno M G i) * M.varRatio := by
  simp only [bin_dense, f64_dot_sp2, accum_eq_sum, zero_add]
  congr 1
  refine sum_congr rfl (fun i hi => ?_)
  rw [dense_adj_eq M G b.coeff b.adj_g i (mem_range.mp hi)]

theorem bin_dense_beta (E : Numerics F) (M : Model F) (b : Buffers F) (G : Nat → F)
    (minus : Bool) :
    (bin_dense E M b G minus).beta =
      (if minus then -1 else 1) * (bin_dense E M b G minus).S /
        (bin_dense E M b G minus).var1 := rfl

theorem bin_dense_indep (E : Numerics F) (M : Model F) (b c : Buffers F) (G : Nat → F)
    (m n : Bool) :
    (bin_dense E M b G m).S = (bin_dense E M c G n).S ∧
    (bin_dense E M b G m).var1 = (bin_dense E M c G n).var1 := by
  simp only [bin_dense_S, bin_dense_var1, and_self]

theorem bin_path_beta (E : Numerics F) (M : Model F) (p : Prep F) :
    (bin_path E M p).beta =
      (if p.minus then -1 else 1) * (bin_path E M p).S / (bin_path E M p).var1 := by
  unfold bin_path
  split <;> rfl

theorem bin_path_pval (E : Numerics F) (M : Model F) (p : Prep F) :
    (bin_path E M p).pval =
      E.Rf_pchisq ((bin_path E M p).S * (bin_path E M p).S / (bin_path E M p).var1)
        1 false false := by
  unfold bin_path
  split <;> rfl

/-- The score and variance of the binary branch statement depend on the prologue
through `maf` and `G` only. -/
theorem bin_path_indep (E : Numerics F) (M : Model F) (p q : Prep F)
    (hmaf : q.maf = p.maf) (hG : q.G = p.G) :
    (bin_path E M q).S = (bin_path E M p).S ∧
    (bin_path E M q).var1 = (bin_path E M p).var1 := by
  unfold bin_path
  rw [hmaf, hG]
  by_cases hb : p.maf < 0.05
  · simp only [hb, if_true]
    exact bin_sparse_indep E M q.buf p.buf p.G q.minus p.minus
  · simp only [hb, if_false]
    exact bin_dense_indep E M q.buf p.buf p.G q.minus p.minus

/-- On the dense branch the cells `buf_adj_g[0..NSamp)` after the binary branch
statement depend on the prologue through `G` only. -/
theorem bin_path_adj_g_dense (E : Numerics F) (M : Model F) (p q : Prep F)
    (hd : ¬ p.maf < 0.05) (hmaf : q.maf = p.maf) (hG : q.G = p.G) (i : Nat)
    (hi : i < M.NSamp) :
    (bin_path E M q).buf.adj_g i = (bin_path E M p).buf.adj_g i := by
  unfold bin_path
  rw [hmaf, hG, if_neg hd, if_neg hd]
  exact (dense_adj_eq M p.G q.buf.coeff q.buf.adj_g i hi).trans
    (dense_adj_eq M p.G p.buf.coeff p.buf.adj_g i hi).symm

/-- The p-value of the recalibration block depends on the incoming `buf_adj_g`
through its cells `[0..NSamp)` only, for a solver that reads those cells only. -/
theorem bin_spa_pval_congr (E : Numerics F) (hE : E.ReadsFirstCells) (M : Model F)
    (a c : Nat → F) (AC : F) (Num : Nat) (minus : Bool)
    (h : ∀ i, i < M.NSamp → a i = c i) :
    (bin_spa E M a AC Num minus).pval = (bin_spa E M c AC Num minus).pval := by
  have hm : ∀ (s : F) (i : Nat), i < M.NSamp →
      f64_mul M.NSamp s a i = f64_mul M.NSamp s c i := by
    intro s i hi
    simp only [f64_mul, hi, if_true, h i hi]
  have h1 : ∀ s : F, f64_dot M.NSamp M.y (f64_mul M.NSamp s a) =
      f64_dot M.NSamp M.y (f64_mul M.NSamp s c) := by
    intro s
    exact accum_congr _ _ _ _ (fun i hi => by simp only [hm s i hi])
  have h2 : ∀ s : F, f64_dot_sp2 M.NSamp M.mu M.mu2 (f64_mul M.NSamp s a) =
      f64_dot_sp2 M.NSamp M.mu M.mu2 (f64_mul M.NSamp s c) := by
    intro s
    simp only [f64_dot_sp2]
    rw [accum_congr 0 M.NSamp (fun i => M.mu i * f64_mul M.NSamp s a i)
        (fun i => M.mu i * f64_mul M.NSamp s c i) (fun i hi => by simp only [hm s i hi]),
      accum_congr 0 M.NSamp
        (fun i => M.mu2 i * f64_mul M.NSamp s a i * f64_mul M.NSamp s a i)
        (fun i => M.mu2 i * f64_mul M.NSamp s c i * f64_mul M.NSamp s c i)
        (fun i hi => by simp only [hm s i hi])]
  simp only [bin_spa]
  congr 1
  refine hE _ _ true ?_ ?_ ?_ rfl rfl rfl (fun i hi => hm _ i hi)
  · simp only [h1, h2]
  · simp only [h2]
  · simp only [h2]

/-- The score `Tstat` of the quantitative sparse branch, written over all samples. -/
theorem quant_sparse_S (E : Numerics F) (M : Model F) (b : Buffers F) (G : Nat → F)
    (mac : F) (minus : Bool) :
    (quant_sparse E M b G mac minus).S =
      ((∑ i in (range M.NSamp).filter (fun i => G i ≠ 0),
          M.y_mu i * (G i - projGeno M G i)) * (1 / E.sqrt mac) +
        ∑ k in range M.NCoeff, (tmpRestricted M G k - M.S_a k) * projCoeff M G k) /
        M.tau 0 := by
  simp only [quant_sparse, accum_eq_sum, zero_add]
  congr 2
  · congr 1
    rw [sum_filter, ← sum_nonzero_index M.NSamp G b.index
      (fun i => M.y_mu i * (G i - projGeno M G i))]
    refine sum_congr rfl (fun j hj => ?_)
    rw [if_pos (mem_range.mp hj), sparse_B_eq M G b.index b.coeff b.B j (mem_range.mp hj)]
  · refine sum_congr rfl (fun k hk => ?_)
    rw [sparse_coeff_eq M G b.index b.coeff k (mem_range.mp hk),
      mul_mat_vec_sp_nonzero _ _ _ _ _ _ _ _ (mem_range.mp hk), tmpRestricted]

/-- The variance of the quantitative sparse branch, written over all samples. -/
theorem quant_sparse_var1 (E : Numerics F) (M : Model F) (b : Buffers F) (G : Nat → F)
    (mac : F) (minus : Bool) :
    (quant_sparse E M b G mac minus).var1 =
      (∑ j in range M.NCoeff, ∑ k in range M.NCoeff,
          projCoeff M G j * M.XVX j k * projCoeff M G k +
        ∑ i in (range M.NSamp).filter (fun i => G i ≠ 0),
          ((G i - projGeno M G i) * (G i - projGeno M G i) -
            projGeno M G i * projGeno M G i)) * (1 / mac) * M.varRatio := by
  simp only [quant_sparse, accum_eq_sum, zero_add, f64_sum_mat_vec, sq]
  congr 3
  · refine sum_congr rfl (fun j hj => sum_congr rfl (fun k hk => ?_))
    rw [sparse_coeff_eq M G b.index b.coeff j (mem_range.mp hj),
      sparse_coeff_eq M G b.index b.coeff k (mem_range.mp hk)]
  · rw [sum_filter, ← sum_nonzero_index M.NSamp G b.index
      (fun i => ((G i - projGeno M G i) * (G i - projGeno M G i) -
            projGeno M G i * projGeno M G i))]
    refine sum_congr rfl (fun j hj => ?_)
    rw [if_pos (mem_range.mp hj), sparse_B_eq M G b.index b.coeff b.B j (mem_range.mp hj)]

theorem quant_sparse_beta (E : Numerics F) (M : Model F) (b : Buffers F) (G : Nat → F)
    (mac : F) (minus : Bool) :
    (quant_sparse E M b G mac minus).beta =
      (if minus then -1 else 1) * (quant_sparse E M b G mac minus).S /
        (quant_sparse E M b G mac minus).var1 * (1 / E.sqrt mac) := rfl

theorem quant_sparse_pval (E : Numerics F) (M : Model F) (b : Buffers F) (G : Nat → F)
    (mac : F) (minus : Bool) :
    (quant_sparse E M b G mac minus).pval =
      E.Rf_pchisq ((quant_sparse E M b G mac minus).S * (quant_sparse E M b G mac minus).S /
        (quant_sparse E M b G mac minus).var1) 1 false false := rfl

/-- The score and variance of a branch do not depend on the scratch contents or on
the sign flag. -/
theorem quant_sparse_indep (E : Numerics F) (M : Model F) (b c : Buffers F) (G : Nat → F)
    (mac : F) (m n : Bool) :
    (quant_sparse E M b G mac m).S = (quant_sparse E M c G mac n).S ∧
    (quant_sparse E M b G mac m).var1 = (quant_sparse E M c G mac n).var1 := by
  simp only [quant_sparse_S, quant_sparse_var1, and_self]

/-! ### The gate and the returned records (C1, C8, C2) -/

theorem gate_iff_not_excluded (M : Model F) (b : Buffers F) (ds : List (Option F)) :
    gate M (preprocess M b ds).imp.Num (preprocess M b ds).maf (preprocess M b ds).mac ↔
      ¬ excluded M (f64_af_ac_impute ds ds.length b.index).AF
        (f64_af_ac_impute ds ds.length b.index).AC
        (f64_af_ac_impute ds ds.length b.index).Num := by
  simp only [gate, excluded, preprocess, not_or, not_le, not_lt]

theorem quant_ans_none_iff (E : Numerics F) (M : Model F) (b : Buffers F)
    (ds : List (Option F)) :
    (saige_score_test_quant E M b ds).ans = none ↔
      ¬ gate M (preprocess M b ds).imp.Num (preprocess M b ds).maf (preprocess M b ds).mac := by
  unfold saige_score_test_quant
  by_cases h : gate M (preprocess M b ds).imp.Num (preprocess M b ds).maf (preprocess M b ds).mac
  · simp [h]
  · simp [h]

theorem bin_ans_none_iff (E : Numerics F) (M : Model F) (b : Buffers F)
    (ds : List (Option F)) :
    (saige_score_test_bin E M b ds).ans = none ↔
      ¬ gate M (preprocess M b ds).imp.Num (preprocess M b ds).maf (preprocess M b ds).mac := by
  unfold saige_score_test_bin
  by_cases h : gate M (preprocess M b ds).imp.Num (preprocess M b ds).maf (preprocess M b ds).mac
  · by_cases hs : needs_spa (bin_path E M (preprocess M b ds)).pval <;> simp [h, hs]
  · simp [h]

theorem gate_of_ans_quant (E : Numerics F) (M : Model F) (b : Buffers F)
    (ds : List (Option F)) (a : QuantAns F)
    (h : (saige_score_test_quant E M b ds).ans = some a) :
    gate M (preprocess M b ds).imp.Num (preprocess M b ds).maf (preprocess M b ds).mac := by
  by_contra hg
  rw [(quant_ans_none_iff E M b ds).mpr hg] at h
  exact Option.noConfusion h

theorem gate_of_ans_bin (E : Numerics F) (M : Model F) (b : Buffers F)
    (ds : List (Option F)) (a : BinAns F)
    (h : (saige_score_test_bin E M b ds).ans = some a) :
    gate M (preprocess M b ds).imp.Num (preprocess M b ds).maf (preprocess M b ds).mac := by
  by_contra hg
  rw [(bin_ans_none_iff E M b ds).mpr hg] at h
  exact Option.noConfusion h

/-- C1: with `(AF, AC, N)` as returned by the imputation kernel, each test returns no
result exactly when the variant is excluded (`N <= 0` or `maf <= 0` or
`maf < mafThreshold` or `mac < macThreshold`); in every other case the quantitative
test returns a record of 6 cells and the binary test a record of 8 cells. -/
theorem no_result_iff_excluded (E : Numerics F) (M : Model F) (b : Buffers F)
    (ds : List (Option F)) :
    ((saige_score_test_quant E M b ds).ans = none ↔
        excluded M (f64_af_ac_impute ds ds.length b.index).AF
          (f64_af_ac_impute ds ds.length b.index).AC
          (f64_af_ac_impute ds ds.length b.index).Num) ∧
    ((saige_score_test_bin E M b ds).ans = none ↔
        excluded M (f64_af_ac_impute ds ds.length b.index).AF
          (f64_af_ac_impute ds ds.length b.index).AC
          (f64_af_ac_impute ds ds.length b.index).Num) ∧
    (¬ excluded M (f64_af_ac_impute ds ds.length b.index).AF
          (f64_af_ac_impute ds ds.length b.index).AC
          (f64_af_ac_impute ds ds.length b.index).Num →
        (∃ a, (saige_score_test_quant E M b ds).ans = some a ∧ a.toVector.length = 6) ∧
        (∃ a, (saige_score_test_bin E M b ds).ans = some a ∧ a.toVector.length = 8)) := by
  have hq := quant_ans_none_iff E M b ds
  have hb := bin_ans_none_iff E M b ds
  rw [gate_iff_not_excluded, not_not] at hq hb
  refine ⟨hq, hb, fun hne => ⟨?_, ?_⟩⟩
  · cases hr : (saige_score_test_quant E M b ds).ans with
    | none => exact absurd (hq.mp hr) hne
    | some a => exact ⟨a, rfl, rfl⟩
  · cases hr : (saige_score_test_bin E M b ds).ans with
    | none => exact absurd (hb.mp hr) hne
    | some a => exact ⟨a, rfl, rfl⟩

/-- Behind the gate the quantitative test runs its sparse branch. -/
theorem quant_path_eq_sparse (E : Numerics F) (M : Model F) (p : Prep F)
    (hg : gate M p.imp.Num p.maf p.mac) :
    quant_path E M p = quant_sparse E M p.buf p.G p.mac p.minus := by
  have h : (-0.05 : F) < p.maf := lt_trans (by norm_num) hg.2.1
  simp only [quant_path, h, if_true]

/-- The record the quantitative test returns behind the gate. -/
theorem quant_gated (E : Numerics F) (M : Model F) (b : Buffers F) (ds : List (Option F))
    (hg : gate M (preprocess M b ds).imp.Num (preprocess M b ds).maf (preprocess M b ds).mac) :
    (saige_score_test_quant E M b ds).ans = some
      { AF := (preprocess M b ds).imp.AF, AC := (preprocess M b ds).imp.AC,
        Num := (preprocess M b ds).imp.Num,
        beta := (quant_sparse E M (preprocess M b ds).buf (preprocess M b ds).G
          (preprocess M b ds).mac (preprocess M b ds).minus).beta,
        SE := (E.Rf_qnorm5 ((quant_sparse E M (preprocess M b ds).buf (preprocess M b ds).G
          (preprocess M b ds).mac (preprocess M b ds).minus).pval.map (fun v => v / 2))
            0 1 true false).map
          (fun z => |(quant_sparse E M (preprocess M b ds).buf (preprocess M b ds).G
            (preprocess M b ds).mac (preprocess M b ds).minus).beta / z|),
        pval := (quant_sparse E M (preprocess M b ds).buf (preprocess M b ds).G
          (preprocess M b ds).mac (preprocess M b ds).minus).pval } := by
  simp only [saige_score_test_quant, if_pos hg, quant_path_eq_sparse E M _ hg]

/-- C8: whenever the threshold gate is passed, whatever the thresholds, the branch
condition `maf > -0.05` of the quantitative test holds and the branch statement runs
the sparse branch; and no call of the quantitative test writes `buf_adj_g`. -/
theorem quant_always_sparse (E : Numerics F) (M : Model F) (b : Buffers F)
    (ds : List (Option F)) :
    (gate M (preprocess M b ds).imp.Num (preprocess M b ds).maf (preprocess M b ds).mac →
      -0.05 < (preprocess M b ds).maf ∧
      quant_path E M (preprocess M b ds) =
        quant_sparse E M (preprocess M b ds).buf (preprocess M b ds).G
          (preprocess M b ds).mac (preprocess M b ds).minus) ∧
    (saige_score_test_quant E M b ds).buf.adj_g = b.adj_g := by
  refine ⟨fun hg => ⟨lt_trans (by norm_num) hg.2.1, quant_path_eq_sparse E M _ hg⟩, ?_⟩
  by_cases hg : gate M (preprocess M b ds).imp.Num (preprocess M b ds).maf
      (preprocess M b ds).mac
  · simp only [saige_score_test_quant, hg, if_true, quant_path_eq_sparse E M _ hg]
    rfl
  · simp only [saige_score_test_quant, hg, if_false]
    rfl

/-- C8 at a concrete variant that passes the gate. -/
theorem quant_always_sparse_witness :
    gate modelNoIntercept
      (preprocess modelNoIntercept zeroBuffers [some 1, some 1, some 1, some 1]).imp.Num
      (preprocess modelNoIntercept zeroBuffers [some 1, some 1, some 1, some 1]).maf
      (preprocess modelNoIntercept zeroBuffers [some 1, some 1, some 1, some 1]).mac ∧
    quant_path stubNumerics modelNoIntercept
        (preprocess modelNoIntercept zeroBuffers [some 1, some 1, some 1, some 1]) =
      quant_sparse stubNumerics modelNoIntercept
        (preprocess modelNoIntercept zeroBuffers [some 1, some 1, some 1, some 1]).buf
        (preprocess modelNoIntercept zeroBuffers [some 1, some 1, some 1, some 1]).G
        (preprocess modelNoIntercept zeroBuffers [some 1, some 1, some 1, some 1]).mac
        (preprocess modelNoIntercept zeroBuffers [some 1, some 1, some 1, some 1]).minus :=
  ⟨by decide!, ((quant_always_sparse stubNumerics modelNoIntercept zeroBuffers
    [some 1, some 1, some 1, some 1]).1 (by decide!)).2⟩

theorem needs_spa_eq_false_iff (v : Option F) :
    needs_spa v = false ↔ v = none ∨ ∃ w, v = some w ∧ 0.05 < w := by
  cases v with
  | none => simp [needs_spa]
  | some w => simp [needs_spa]

/-- The record the binary test returns when no recalibration is due. -/
theorem bin_plain (E : Numerics F) (M : Model F) (b : Buffers F) (ds : List (Option F))
    (hg : gate M (preprocess M b ds).imp.Num (preprocess M b ds).maf (preprocess M b ds).mac)
    (hs : needs_spa (bin_path E M (preprocess M b ds)).pval = false) :
    (saige_score_test_bin E M b ds).ans = some
      { AF := (preprocess M b ds).imp.AF, AC := (preprocess M b ds).imp.AC,
        Num := (preprocess M b ds).imp.Num, beta := (bin_path E M (preprocess M b ds)).beta,
        SE := (E.Rf_qnorm5 ((bin_path E M (preprocess M b ds)).pval.map (fun v => v / 2))
          0 1 true false).map (fun z => |(bin_path E M (preprocess M b ds)).beta / z|),
        pval := (bin_path E M (preprocess M b ds)).pval,
        pval_noadj := (bin_path E M (preprocess M b ds)).pval, converged := true } ∧
    (saige_score_test_bin E M b ds).spa_calls = [] := by
  simp only [saige_score_test_bin, if_pos hg, hs, Bool.false_eq_true, if_false, and_self]

/-- The record the binary test returns after recalibration. -/
theorem bin_recal (E : Numerics F) (M : Model F) (b : Buffers F) (ds : List (Option F))
    (hg : gate M (preprocess M b ds).imp.Num (preprocess M b ds).maf (preprocess M b ds).mac)
    (hs : needs_spa (bin_path E M (preprocess M b ds)).pval = true) :
    (saige_score_test_bin E M b ds).ans = some
      { AF := (preprocess M b ds).imp.AF, AC := (preprocess M b ds).imp.AC,
        Num := (preprocess M b ds).imp.Num,
        beta := (bin_spa E M (bin_path E M (preprocess M b ds)).buf.adj_g
          (preprocess M b ds).imp.AC (preprocess M b ds).imp.Num (preprocess M b ds).minus).beta,
        SE := (E.Rf_qnorm5 ((bin_spa E M (bin_path E M (preprocess M b ds)).buf.adj_g
          (preprocess M b ds).imp.AC (preprocess M b ds).imp.Num
          (preprocess M b ds).minus).pval.map (fun v => v / 2)) 0 1 true false).map
            (fun z => |(bin_spa E M (bin_path E M (preprocess M b ds)).buf.adj_g
              (preprocess M b ds).imp.AC (preprocess M b ds).imp.Num
              (preprocess M b ds).minus).beta / z|),
        pval := (bin_spa E M (bin_path E M (preprocess M b ds)).buf.adj_g
          (preprocess M b ds).imp.AC (preprocess M b ds).imp.Num (preprocess M b ds).minus).pval,
        pval_noadj := (bin_path E M (preprocess M b ds)).pval,
        converged := (bin_spa E M (bin_path E M (preprocess M b ds)).buf.adj_g
          (preprocess M b ds).imp.AC (preprocess M b ds).imp.Num
          (preprocess M b ds).minus).converged } := by
  simp only [saige_score_test_bin, if_pos hg, hs, if_true]

/-- C2: for a variant that passes the gate of the binary test, if the unadjusted
p-value is non-finite or greater than 0.05, then `Saddle_Prob` is not called, the
returned `p` (cell 5) is `pUnadj` (cell 6), the returned flag (cell 7) is 1, and
`beta` is the unadjusted `(minus ? -1 : 1) * S / var1` of the branch taken. -/
theorem bin_no_recalibration (E : Numerics F) (M : Model F) (b : Buffers F)
    (ds : List (Option F)) (a : BinAns F)
    (h : (saige_score_test_bin E M b ds).ans = some a)
    (hp : a.pval_noadj = none ∨ ∃ w, a.pval_noadj = some w ∧ 0.05 < w) :
    (saige_score_test_bin E M b ds).spa_calls = [] ∧
    a.pval = a.pval_noadj ∧ a.toVector.get? 5 = a.toVector.get? 6 ∧
    a.converged = true ∧ a.toVector.get? 7 = some (some 1) ∧
    a.beta = (if (preprocess M b ds).minus then -1 else 1) *
      (bin_path E M (preprocess M b ds)).S / (bin_path E M (preprocess M b ds)).var1 := by
  by_cases hg : gate M (preprocess M b ds).imp.Num (preprocess M b ds).maf
      (preprocess M b ds).mac
  · cases hs : needs_spa (bin_path E M (preprocess M b ds)).pval with
    | true =>
      exfalso
      rw [bin_recal E M b ds hg hs, Option.some.injEq] at h
      have hpv : a.pval_noadj = (bin_path E M (preprocess M b ds)).pval := by rw [← h]
      rw [← needs_spa_eq_false_iff, hpv, hs] at hp
      exact Bool.noConfusion hp
    | false =>
      obtain ⟨h1, h2⟩ := bin_plain E M b ds hg hs
      rw [h1, Option.some.injEq] at h
      subst h
      refine ⟨h2, rfl, rfl, rfl, ?_, bin_path_beta E M _⟩
      simp [BinAns.toVector]
  · rw [(bin_ans_none_iff E M b ds).mpr hg] at h
    exact Option.noConfusion h

/-- C2 at a concrete variant whose unadjusted statistic is 2, so that the unadjusted
p-value exceeds 0.05. -/
theorem bin_no_recalibration_witness :
    (saige_score_test_bin stubNumerics modelNoIntercept zeroBuffers
      [some 1, some 1, some 1, some 1]).ans =
        some ⟨1 / 2, 4, 4, 2, some 2, some (1 / 2), some (1 / 2), true⟩ ∧
    (saige_score_test_bin stubNumerics modelNoIntercept zeroBuffers
      [some 1, some 1, some 1, some 1]).spa_calls = [] :=
  ⟨by decide!, (bin_no_recalibration stubNumerics modelNoIntercept zeroBuffers
      [some 1, some 1, some 1, some 1]
      ⟨1 / 2, 4, 4, 2, some 2, some (1 / 2), some (1 / 2), true⟩
      (by decide!) (Or.inr ⟨1 / 2, rfl, by norm_num⟩)).1⟩

/-! ### The allele swap (C3, C4) -/

theorem observed_complement (ds : List (Option F)) :
    observed (complement ds) = (observed ds).map (fun x => 2 - x) := by
  induction ds with
  | nil => rfl
  | cons d ds ih =>
    cases d with
    | none => simpa [observed, complement] using ih
    | some x =>
      simp only [observed, complement, List.map_cons, Option.map_some', List.filterMap_cons,
        id_eq, List.map_cons] at ih ⊢
      rw [ih]

theorem sum_map_two_sub (l : List F) :
    (l.map (fun x => 2 - x)).sum = 2 * (l.length : F) - l.sum := by
  induction l with
  | nil => simp
  | cons x l ih =>
    simp only [List.map_cons, List.sum_cons, List.length_cons, Nat.cast_succ, ih]
    ring

theorem complement_Num (ds : List (Option F)) (n m : Nat) (i j : Nat → Nat) :
    (f64_af_ac_impute (complement ds) n i).Num = (f64_af_ac_impute ds m j).Num := by
  simp [f64_af_ac_impute, observed_complement]

theorem complement_AC (ds : List (Option F)) (n m : Nat) (i j : Nat → Nat) :
    (f64_af_ac_impute (complement ds) n i).AC =
      2 * ((f64_af_ac_impute ds m j).Num : F) - (f64_af_ac_impute ds m j).AC := by
  simp [f64_af_ac_impute, observed_complement, sum_map_two_sub]

theorem complement_AF (ds : List (Option F)) (n m : Nat) (i j : Nat → Nat)
    (hN : 0 < (f64_af_ac_impute ds m j).Num) :
    (f64_af_ac_impute (complement ds) n i).AF = 1 - (f64_af_ac_impute ds m j).AF := by
  have hN0 : (observed ds).length ≠ 0 := Nat.pos_iff_ne_zero.mp hN
  have hNF : ((observed ds).length : F) ≠ 0 := Nat.cast_ne_zero.mpr hN0
  simp only [f64_af_ac_impute, observed_complement, List.length_map, hN0, if_false,
    sum_map_two_sub]
  field_simp

theorem complement_length (ds : List (Option F)) : (complement ds).length = ds.length := by
  simp [complement]

theorem complement_G (ds : List (Option F)) (i j : Nat → Nat)
    (hN : 0 < (f64_af_ac_impute ds ds.length j).Num) (k : Nat) :
    (f64_af_ac_impute (complement ds) (complement ds).length i).G k =
      if k < ds.length then 2 - (f64_af_ac_impute ds ds.length j).G k else 0 := by
  have hAF := complement_AF ds (complement ds).length ds.length i j hN
  have hG : ∀ (e : Imputed F) (n : Nat) (l : List (Option F)) (q : Nat → Nat),
      e = f64_af_ac_impute l n q →
      e.G k = if k < n then (l.getD k (some 0)).getD (2 * e.AF) else 0 := by
    intro e n l q he
    subst he
    rfl
  rw [hG _ _ _ _ rfl, hG (f64_af_ac_impute ds ds.length j) _ _ _ rfl, hAF, complement_length]
  by_cases hk : k < ds.length
  · simp only [hk, if_true, complement, List.getD_eq_getElem?_getD, List.getElem?_map,
      List.getElem?_eq_getElem hk, Option.map_some', Option.getD_some]
    cases ds[k] with
    | none => simp only [Option.map_none', Option.getD_none]; ring
    | some x => simp only [Option.map_some', Option.getD_some]
  · simp only [hk, if_false]

/-- How the prologue of a call on `2 - g` relates to the prologue of the call on `g`,
for a vector of `NSamp` entries with an observed entry and `AF` other than one
half. -/
theorem preprocess_complement (M : Model F) (b c : Buffers F) (ds : List (Option F))
    (hlen : ds.length = M.NSamp) (hN : 0 < (preprocess M b ds).imp.Num)
    (hAF : (preprocess M b ds).imp.AF ≠ 0.5) :
    (preprocess M c (complement ds)).imp.Num = (preprocess M b ds).imp.Num ∧
    (preprocess M c (complement ds)).imp.AC =
      2 * ((preprocess M b ds).imp.Num : F) - (preprocess M b ds).imp.AC ∧
    (preprocess M c (complement ds)).imp.AF = 1 - (preprocess M b ds).imp.AF ∧
    (preprocess M c (complement ds)).maf = (preprocess M b ds).maf ∧
    (preprocess M c (complement ds)).mac = (preprocess M b ds).mac ∧
    (preprocess M c (complement ds)).minus = !(preprocess M b ds).minus ∧
    (preprocess M c (complement ds)).G = (preprocess M b ds).G := by
  have e1 := complement_Num ds (complement ds).length ds.length c.index b.index
  have e2 := complement_AC ds (complement ds).length ds.length c.index b.index
  have e3 := complement_AF ds (complement ds).length ds.length c.index b.index hN
  have e4 := complement_G ds c.index b.index hN
  have e5 : ∀ k, ¬ k < M.NSamp → (f64_af_ac_impute ds ds.length b.index).G k = 0 := by
    intro k hk
    rw [← hlen] at hk
    simp only [f64_af_ac_impute, hk, if_false]
  have hp : ∀ (l : List (Option F)) (q : Buffers F),
      preprocess M q l =
        { imp := f64_af_ac_impute l l.length q.index
          maf := min (f64_af_ac_impute l l.length q.index).AF
            (1 - (f64_af_ac_impute l l.length q.index).AF)
          mac := min (f64_af_ac_impute l l.length q.index).AC
            (2 * ((f64_af_ac_impute l l.length q.index).Num : F) -
              (f64_af_ac_impute l l.length q.index).AC)
          minus := decide (0.5 < (f64_af_ac_impute l l.length q.index).AF)
          G := if decide (0.5 < (f64_af_ac_impute l l.length q.index).AF) = true
            then f64_sub M.NSamp 2 (f64_af_ac_impute l l.length q.index).G
            else (f64_af_ac_impute l l.length q.index).G
          buf := { q with index := (f64_af_ac_impute l l.length q.index).index } } :=
    fun _ _ => rfl
  rw [hp ds b] at hAF
  simp only at hAF
  rw [hp (complement ds) c, hp ds b]
  simp only
  generalize f64_af_ac_impute ds ds.length b.index = e at e1 e2 e3 e4 e5 hAF
  generalize f64_af_ac_impute (complement ds) (complement ds).length c.index = e' at e1 e2 e3 e4
  refine ⟨e1, e2, e3, ?_, ?_, ?_, ?_⟩
  · rw [e3, sub_sub_cancel, min_comm]
  · rw [e2, e1, sub_sub_cancel, min_comm]
  · rw [e3]
    rcases lt_or_gt_of_ne hAF with h | h
    · have h' : (0.5 : F) < 1 - e.AF := by norm_num at h ⊢; linarith
      simp [h', not_lt.mpr (le_of_lt h)]
    · have h' : ¬ (0.5 : F) < 1 - e.AF := by norm_num at h ⊢; linarith
      simp [h', h]
  · funext k
    rw [e3]
    rcases lt_or_gt_of_ne hAF with h | h
    · have h' : (0.5 : F) < 1 - e.AF := by norm_num at h ⊢; linarith
      simp only [h', not_lt.mpr (le_of_lt h), decide_True, decide_False, if_true, if_false,
        Bool.false_eq_true, f64_sub, e4 k, hlen]
      by_cases hk : k < M.NSamp
      · simp only [hk, if_true, sub_sub_cancel]
      · simp only [hk, if_false, e5 k hk]
    · have h' : ¬ (0.5 : F) < 1 - e.AF := by norm_num at h ⊢; linarith
      simp only [h', h, decide_True, decide_False, if_true, if_false,
        Bool.false_eq_true, f64_sub, e4 k, hlen]
      by_cases hk : k < M.NSamp
      · simp only [hk, if_true]
      · simp only [hk, if_false, e5 k hk]

/-- C3 (amended): in exact arithmetic, for a dosage vector `g` of `NSamp` entries
whose allele frequency is not one half, if the quantitative test returns a record
`(AF, AC, N, beta, SE, p)` then so does the call on the complement `2 - g`, from any
scratch contents, and its record has `AF' = 1 - AF`, `beta' = -beta` and
`p' = p`. -/
theorem quant_allele_swap (E : Numerics F) (M : Model F) (b c : Buffers F)
    (ds : List (Option F)) (a : QuantAns F) (hlen : ds.length = M.NSamp)
    (h : (saige_score_test_quant E M b ds).ans = some a) (hAF : a.AF ≠ 0.5) :
    ∃ a2, (saige_score_test_quant E M c (complement ds)).ans = some a2 ∧
      a2.AF = 1 - a.AF ∧ a2.beta = -a.beta ∧ a2.pval = a.pval := by
  have hg := gate_of_ans_quant E M b ds a h
  rw [quant_gated E M b ds hg, Option.some.injEq] at h
  subst h
  obtain ⟨e1, -, e3, e4, e5, e6, e7⟩ := preprocess_complement M b c ds hlen hg.1 hAF
  have hg2 : gate M (preprocess M c (complement ds)).imp.Num
      (preprocess M c (complement ds)).maf (preprocess M c (complement ds)).mac := by
    rw [e1, e4, e5]; exact hg
  refine ⟨_, quant_gated E M c (complement ds) hg2, e3, ?_, ?_⟩
  · simp only [quant_sparse_beta, e5, e6, e7]
    rw [(quant_sparse_indep E M (preprocess M c (complement ds)).buf (preprocess M b ds).buf
        (preprocess M b ds).G (preprocess M b ds).mac (!(preprocess M b ds).minus)
        (preprocess M b ds).minus).1,
      (quant_sparse_indep E M (preprocess M c (complement ds)).buf (preprocess M b ds).buf
        (preprocess M b ds).G (preprocess M b ds).mac (!(preprocess M b ds).minus)
        (preprocess M b ds).minus).2]
    cases (preprocess M b ds).minus <;> simp <;> ring
  · simp only [quant_sparse_pval, e5, e6, e7]
    rw [(quant_sparse_indep E M (preprocess M c (complement ds)).buf (preprocess M b ds).buf
        (preprocess M b ds).G (preprocess M b ds).mac (!(preprocess M b ds).minus)
        (preprocess M b ds).minus).1,
      (quant_sparse_indep E M (preprocess M c (complement ds)).buf (preprocess M b ds).buf
        (preprocess M b ds).G (preprocess M b ds).mac (!(preprocess M b ds).minus)
        (preprocess M b ds).minus).2]

/-- C3 (amended) at a carrier, a missing entry and two non-carriers (`AF = 1/6`),
the second call starting from other scratch contents. -/
theorem quant_allele_swap_witness :
    carrierAndMissing.length = (interceptModel 4).NSamp ∧
    (saige_score_test_quant stubNumerics (interceptModel 4) zeroBuffers carrierAndMissing).ans =
      some ⟨1 / 6, 1, 3, 24 / 11, some (24 / 11), some (1 / 2)⟩ ∧
    ∃ a2, (saige_score_test_quant stubNumerics (interceptModel 4) (staleBuffers 1)
        (complement carrierAndMissing)).ans = some a2 ∧
      a2.AF = 1 - 1 / 6 ∧ a2.beta = -(24 / 11) ∧ a2.pval = some (1 / 2) :=
  ⟨by decide, by decide!,
    quant_allele_swap stubNumerics (interceptModel 4) zeroBuffers (staleBuffers 1)
      carrierAndMissing ⟨1 / 6, 1, 3, 24 / 11, some (24 / 11), some (1 / 2)⟩ (by decide)
      (by decide!) (by norm_num)⟩

/-- C3 as stated fails at `AF = 1/2`: four heterozygous samples are their own
complement, and the quantitative test returns `beta = 2` for both codings, not
opposite values. -/
theorem quant_allele_swap_fails_at_half :
    complement [some (1 : ℚ), some 1, some 1, some 1] = [some 1, some 1, some 1, some 1] ∧
    (saige_score_test_quant stubNumerics modelNoIntercept zeroBuffers
      [some 1, some 1, some 1, some 1]).ans.map (fun a => (a.AF, a.beta)) =
        some (1 / 2, 2) ∧
    (saige_score_test_quant stubNumerics modelNoIntercept zeroBuffers
      (complement [some 1, some 1, some 1, some 1])).ans.map (fun a => (a.AF, a.beta)) =
        some (1 / 2, 2) := by
  decide!

/-- The recalibration block reads `AC`, `Num` and `minus` through `AC2` only. -/
theorem bin_spa_swap (E : Numerics F) (M : Model F) (a : Nat → F) (AC : F) (Num : Nat)
    (minus : Bool) :
    bin_spa E M a (2 * (Num : F) - AC) Num (!minus) = bin_spa E M a AC Num minus := by
  cases minus <;> simp [bin_spa]

/-- C4 (amended): in exact arithmetic, for a dosage vector `g` of `NSamp` entries
whose allele frequency is not one half, if the binary test returns a record then so
does the call on the complement `2 - g`, from any scratch contents, with
`AF' = 1 - AF` and the same unadjusted p-value; when recalibration is not triggered
(`pUnadj` non-finite or above 0.05), `beta' = -beta` and `p' = p`; when it is
triggered on the dense branch (`maf >= 0.05`) and the solver reads the cells
`g[0..n_g)` only, `p' = p`. -/
theorem bin_allele_swap (E : Numerics F) (M : Model F) (b c : Buffers F)
    (ds : List (Option F)) (a : BinAns F) (hlen : ds.length = M.NSamp)
    (h : (saige_score_test_bin E M b ds).ans = some a) (hAF : a.AF ≠ 0.5) :
    ∃ a2, (saige_score_test_bin E M c (complement ds)).ans = some a2 ∧
      a2.AF = 1 - a.AF ∧ a2.pval_noadj = a.pval_noadj ∧
      ((a.pval_noadj = none ∨ ∃ w, a.pval_noadj = some w ∧ 0.05 < w) →
        a2.beta = -a.beta ∧ a2.pval = a.pval) ∧
      ((∃ w, a.pval_noadj = some w ∧ w ≤ 0.05) → 0.05 ≤ min a.AF (1 - a.AF) →
        E.ReadsFirstCells → a2.pval = a.pval) := by
  have hg := gate_of_ans_bin E M b ds a h
  have hAF1 : (preprocess M b ds).imp.AF ≠ 0.5 := by
    cases hs : needs_spa (bin_path E M (preprocess M b ds)).pval with
    | true =>
      rw [bin_recal E M b ds hg hs, Option.some.injEq] at h
      rw [← h] at hAF
      exact hAF
    | false =>
      rw [(bin_plain E M b ds hg hs).1, Option.some.injEq] at h
      rw [← h] at hAF
      exact hAF
  obtain ⟨e1, e2, e3, e4, e5, e6, e7⟩ := preprocess_complement M b c ds hlen hg.1 hAF1
  have hg2 : gate M (preprocess M c (complement ds)).imp.Num
      (preprocess M c (complement ds)).maf (preprocess M c (complement ds)).mac := by
    rw [e1, e4, e5]; exact hg
  obtain ⟨hS, hV⟩ := bin_path_indep E M (preprocess M b ds) (preprocess M c (complement ds))
    e4 e7
  have hP : (bin_path E M (preprocess M c (complement ds))).pval =
      (bin_path E M (preprocess M b ds)).pval := by
    rw [bin_path_pval, bin_path_pval, hS, hV]
  have hB : (bin_path E M (preprocess M c (complement ds))).beta =
      -(bin_path E M (preprocess M b ds)).beta := by
    rw [bin_path_beta, bin_path_beta, hS, hV, e6]
    cases (preprocess M b ds).minus <;> simp <;> ring
  cases hs : needs_spa (bin_path E M (preprocess M b ds)).pval with
  | true =>
    have hs2 : needs_spa (bin_path E M (preprocess M c (complement ds))).pval = true := by
      rw [hP]; exact hs
    rw [bin_recal E M b ds hg hs, Option.some.injEq] at h
    subst h
    refine ⟨_, bin_recal E M c (complement ds) hg2 hs2, e3, hP, ?_, ?_⟩
    · intro hp
      rw [← needs_spa_eq_false_iff] at hp
      simp only at hp
      rw [hs] at hp
      exact Bool.noConfusion hp
    · intro _ hdense hE
      have hd : ¬ (preprocess M b ds).maf < 0.05 := not_lt.mpr hdense
      simp only
      rw [e1, e2, e6, bin_spa_swap]
      exact bin_spa_pval_congr E hE M _ _ _ _ _
        (bin_path_adj_g_dense E M (preprocess M b ds) (preprocess M c (complement ds))
          hd e4 e7)
  | false =>
    have hs2 : needs_spa (bin_path E M (preprocess M c (complement ds))).pval = false := by
      rw [hP]; exact hs
    rw [(bin_plain E M b ds hg hs).1, Option.some.injEq] at h
    subst h
    refine ⟨_, (bin_plain E M c (complement ds) hg2 hs2).1, e3, hP, fun _ => ⟨hB, hP⟩, ?_⟩
    intro _ _ _
    exact hP

/-- C4 (amended) at a carrier, a missing entry and two non-carriers (`AF = 1/6`,
no recalibration), and at one carrier among nine samples (`AF = 1/18`, dense branch,
recalibration), the second call starting from other scratch contents each time. -/
theorem bin_allele_swap_witness :
    (carrierAndMissing.length = (interceptModel 4).NSamp ∧
      (saige_score_test_bin stubNumerics (interceptModel 4) zeroBuffers
        carrierAndMissing).ans =
        some ⟨1 / 6, 1, 3, 16 / 3, some (16 / 3), some (1 / 2), some (1 / 2), true⟩ ∧
      ∃ a2, (saige_score_test_bin stubNumerics (interceptModel 4) (staleBuffers 1)
          (complement carrierAndMissing)).ans = some a2 ∧ a2.AF = 1 - 1 / 6 ∧
        a2.pval_noadj = some (1 / 2) ∧ a2.beta = -(16 / 3) ∧ a2.pval = some (1 / 2)) ∧
    ((oneCarrier 9).length = (interceptModel 9).NSamp ∧
      (saige_score_test_bin stubNumerics (interceptModel 9) zeroBuffers (oneCarrier 9)).ans =
        some ⟨1 / 18, 1, 9, 81 / 8, some (81 / 8), some (1 / 1000), some (1 / 100), true⟩ ∧
      stubNumerics.ReadsFirstCells ∧
      ∃ a2, (saige_score_test_bin stubNumerics (interceptModel 9) (staleBuffers 1)
          (complement (oneCarrier 9))).ans = some a2 ∧ a2.AF = 1 - 1 / 18 ∧
        a2.pval_noadj = some (1 / 100) ∧ a2.pval = some (1 / 1000)) :=
  ⟨⟨by decide, by decide!,
    (bin_allele_swap stubNumerics (interceptModel 4) zeroBuffers (staleBuffers 1)
      carrierAndMissing
      ⟨1 / 6, 1, 3, 16 / 3, some (16 / 3), some (1 / 2), some (1 / 2), true⟩ (by decide)
      (by decide!) (by norm_num)).imp
      (fun _ h => ⟨h.1, h.2.1, h.2.2.1, h.2.2.2.1 (Or.inr ⟨1 / 2, rfl, by norm_num⟩)⟩)⟩,
   ⟨by decide, by decide!, fun _ _ _ _ _ _ _ _ _ _ => rfl,
    (bin_allele_swap stubNumerics (interceptModel 9) zeroBuffers (staleBuffers 1)
      (oneCarrier 9)
      ⟨1 / 18, 1, 9, 81 / 8, some (81 / 8), some (1 / 1000), some (1 / 100), true⟩
      (by decide) (by decide!) (by norm_num)).imp
      (fun _ h => ⟨h.1, h.2.1, h.2.2.1,
        h.2.2.2.2 ⟨1 / 100, rfl, by norm_num⟩ (by decide!)
          (fun _ _ _ _ _ _ _ _ _ _ => rfl)⟩)⟩⟩

/-- C4 as stated fails twice.  At `AF = 1/2` four heterozygous samples are their own
complement and the binary test returns `beta = 2` for both codings (unadjusted
statistic 2, no recalibration).  With recalibration triggered (one carrier among nine
samples, dense branch, unadjusted statistic 9), the call on `g` and the call on
`2 - g` both return `beta = 81/8`: the recalibrated estimate carries no sign
correction. -/
theorem bin_allele_swap_fails :
    ((saige_score_test_bin stubNumerics modelNoIntercept zeroBuffers
        [some 1, some 1, some 1, some 1]).ans.map (fun a => (a.AF, a.beta)) =
        some (1 / 2, 2) ∧
      (saige_score_test_bin stubNumerics modelNoIntercept zeroBuffers
        (complement [some 1, some 1, some 1, some 1])).ans.map (fun a => (a.AF, a.beta)) =
        some (1 / 2, 2)) ∧
    ((saige_score_test_bin stubNumerics (interceptModel 9) zeroBuffers
        (oneCarrier 9)).ans.map (fun a => (a.AF, a.beta)) = some (1 / 18, 81 / 8) ∧
      (saige_score_test_bin stubNumerics (interceptModel 9) zeroBuffers
        (oneCarrier 9)).spa_calls.length = 1 ∧
      (saige_score_test_bin stubNumerics (interceptModel 9) zeroBuffers
        (complement (oneCarrier 9))).ans.map (fun a => (a.AF, a.beta)) =
        some (17 / 18, 81 / 8) ∧
      (saige_score_test_bin stubNumerics (interceptModel 9) zeroBuffers
        (complement (oneCarrier 9))).spa_calls.length = 1) := by
  decide!

/-! ### Model ingestion (C5) -/

theorem bind_ok_iff {α β : Type} (x : Except String α) (f : α → Except String β) (r : β) :
    (x >>= f) = .ok r ↔ ∃ a, x = .ok a ∧ f a = .ok r := by
  cases x <;> simp [bind, Except.bind]

theorem get_ok_iff {K : Type} (M : RList K) (name : String) (x : RObj K) :
    M.get name = .ok x ↔ M.lookup name = some x := by
  unfold RList.get
  cases M.lookup name <;> simp

theorem REAL_ok_iff (x : RObj F) (p : Nat → F) :
    REAL x = .ok p ↔ ∃ v d, x = .real v d ∧ p = fun i => v.getD i 0 := by
  cases x <;> simp [REAL, eq_comm]

theorem INTEGER_ok_iff {K : Type} (x : RObj K) (p : Nat → Nat) :
    INTEGER x = .ok p ↔ ∃ v, x = .int v ∧ p = fun i => (v.getD i 0).toNat := by
  cases x <;> simp [INTEGER, eq_comm]

theorem nrow_ok_iff (x : RObj F) (n : Nat) :
    nrow x = .ok n ↔ ∃ v d, x = .real v (some d) ∧ n = d.1 := by
  cases x with
  | real v d =>
    cases d with
    | none => simp [nrow]
    | some d =>
      simp only [nrow, Except.ok.injEq, RObj.real.injEq, Option.some.injEq]
      constructor
      · intro h
        exact ⟨v, d, ⟨rfl, rfl⟩, h.symm⟩
      · rintro ⟨_, _, ⟨_, rfl⟩, h⟩
        exact h.symm
  | int v => simp [nrow]
  | null => simp [nrow]

theorem init_ok_wellTyped (M : RList F) (r : Model F × Buffers F)
    (h : saige_score_test_init M = .ok r) :
    M.WellTyped ∧ ∃ y v d, M.lookup "y" = some y ∧ M.lookup "XV" = some (.real v (some d)) ∧
      r.1.NSamp = Rf_length y ∧ r.1.NCoeff = d.1 := by
  unfold saige_score_test_init at h
  simp only [bind_ok_iff, get_ok_iff, REAL_ok_iff, INTEGER_ok_iff, nrow_ok_iff] at h
  obtain ⟨x1, h1, h⟩ := h
  obtain ⟨x2, h2, h⟩ := h
  obtain ⟨x3, h3, h⟩ := h
  obtain ⟨x4, h4, n, ⟨v4, d4, e4, en⟩, h⟩ := h
  rw [e4] at h4
  obtain ⟨x5, h5, p5, ⟨v5, d5, e5, -⟩, h⟩ := h
  rw [e5] at h5
  obtain ⟨x6, h6, p6, ⟨v6, d6, e6, -⟩, h⟩ := h
  rw [e6] at h6
  obtain ⟨x7, h7, p7, ⟨v7, d7, e7, -⟩, h⟩ := h
  rw [e7] at h7
  obtain ⟨x8, h8, p8, ⟨v8, d8, e8, -⟩, h⟩ := h
  rw [e8] at h8
  obtain ⟨x9, h9, p9, ⟨v9, d9, e9, -⟩, h⟩ := h
  rw [e9] at h9
  obtain ⟨x10, h10, p10, ⟨v10, d10, e10, -⟩, h⟩ := h
  rw [e10] at h10
  obtain ⟨x11, h11, p11, ⟨v11, d11, e11, -⟩, h⟩ := h
  rw [e11] at h11
  obtain ⟨x12, h12, p12, ⟨v12, d12, e12, -⟩, h⟩ := h
  rw [e12] at h12
  obtain ⟨x13, h13, p13, ⟨v13, d13, e13, -⟩, h⟩ := h
  rw [e13] at h13
  obtain ⟨x14, h14, p14, ⟨v14, d14, e14, -⟩, h⟩ := h
  rw [e14] at h14
  obtain ⟨x15, h15, p15, ⟨v15, d15, e15, -⟩, h⟩ := h
  rw [e15] at h15
  obtain ⟨x16, h16, h⟩ := h
  obtain ⟨x17, h17, p17, ⟨v17, d17, e17, -⟩, h⟩ := h
  rw [e17] at h17
  obtain ⟨x18, h18, p18, ⟨v18, d18, e18, -⟩, h⟩ := h
  rw [e18] at h18
  obtain ⟨x19, h19, p19, ⟨v19, e19, -⟩, h⟩ := h
  rw [e19] at h19
  obtain ⟨x20, h20, p20, ⟨v20, d20, e20, -⟩, h⟩ := h
  rw [e20] at h20
  obtain ⟨x21, h21, p21, ⟨v21, d21, e21, -⟩, h⟩ := h
  rw [e21] at h21
  obtain ⟨x22, h22, p22, ⟨v22, d22, e22, -⟩, h⟩ := h
  rw [e22] at h22
  have hr := Except.ok.inj h
  refine ⟨⟨⟨x1, h1⟩, ⟨x2, h2⟩, ⟨x16, h16⟩, ⟨v4, d4, h4⟩, ⟨v19, h19⟩, ?_⟩,
    x3, v4, d4, h3, h4, ?_, ?_⟩
  · intro name hname
    simp only [List.mem_cons, List.mem_singleton, List.not_mem_nil, or_false] at hname
    rcases hname with h | h | h | h | h | h | h | h | h | h | h | h | h | h | h <;> subst h
    · exact ⟨_, _, h5⟩
    · exact ⟨_, _, h6⟩
    · exact ⟨_, _, h7⟩
    · exact ⟨_, _, h8⟩
    · exact ⟨_, _, h9⟩
    · exact ⟨_, _, h10⟩
    · exact ⟨_, _, h12⟩
    · exact ⟨_, _, h13⟩
    · exact ⟨_, _, h14⟩
    · exact ⟨_, _, h15⟩
    · exact ⟨_, _, h17⟩
    · exact ⟨_, _, h18⟩
    · exact ⟨_, _, h20⟩
    · exact ⟨_, _, h21⟩
    · exact ⟨_, _, h22⟩
  · rw [← hr]
  · rw [← hr]
    exact en

theorem init_ok_of_wellTyped (M : RList F) (h : M.WellTyped) :
    ∃ r, saige_score_test_init M = .ok r := by
  obtain ⟨⟨x1, h1⟩, ⟨x2, h2⟩, ⟨x3, h3⟩, ⟨v4, d4, h4⟩, ⟨v5, h5⟩, hall⟩ := h
  obtain ⟨a1, b1, g1⟩ := hall "tau" (by simp)
  obtain ⟨a2, b2, g2⟩ := hall "y" (by simp)
  obtain ⟨a3, b3, g3⟩ := hall "mu" (by simp)
  obtain ⟨a4, b4, g4⟩ := hall "y_mu" (by simp)
  obtain ⟨a5, b5, g5⟩ := hall "mu2" (by simp)
  obtain ⟨a6, b6, g6⟩ := hall "t_XXVX_inv" (by simp)
  obtain ⟨a7, b7, g7⟩ := hall "t_XVX_inv_XV" (by simp)
  obtain ⟨a8, b8, g8⟩ := hall "XVX" (by simp)
  obtain ⟨a9, b9, g9⟩ := hall "t_X" (by simp)
  obtain ⟨a10, b10, g10⟩ := hall "S_a" (by simp)
  obtain ⟨a11, b11, g11⟩ := hall "buf_coeff" (by simp)
  obtain ⟨a12, b12, g12⟩ := hall "buf_adj_g" (by simp)
  obtain ⟨a13, b13, g13⟩ := hall "buf_B" (by simp)
  obtain ⟨a14, b14, g14⟩ := hall "buf_g_tilde" (by simp)
  obtain ⟨a15, b15, g15⟩ := hall "buf_tmp" (by simp)
  simp only [saige_score_test_init, RList.get, h1, h2, h3, h4, h5, g1, g2, g3, g4, g5, g6, g7,
    g8, g9, g10, g11, g12, g13, g14, g15, REAL, INTEGER, nrow, bind, Except.bind, pure,
    Except.pure, Except.ok.injEq, exists_eq']

/-- C5 (amended): model ingestion succeeds exactly when every field it reads is
present with the storage type it is read with (the three scalars present, `XV` a
numeric matrix, `buf_index` an integer vector, every other field a numeric vector);
it compares no length or shape with another, and on success `NSamp` is the length of
`y` and `NCoeff` the row count of `XV`. -/
theorem init_checks_types_only (M : RList F) :
    ((∃ r, saige_score_test_init M = .ok r) ↔ M.WellTyped) ∧
    ∀ r, saige_score_test_init M = .ok r →
      ∃ y v d, M.lookup "y" = some y ∧ M.lookup "XV" = some (.real v (some d)) ∧
        r.1.NSamp = Rf_length y ∧ r.1.NCoeff = d.1 :=
  ⟨⟨fun ⟨r, hr⟩ => (init_ok_wellTyped M r hr).1, init_ok_of_wellTyped M⟩,
    fun r hr => (init_ok_wellTyped M r hr).2⟩

/-- C5 as stated fails: ingestion accepts a model list in which `mu` has one entry
and `y_mu` three while `y` has two, and `t_X` has three rows while `XV` has one; it
installs `NSamp = 2` and `NCoeff = 1`. -/
theorem init_accepts_misshapen :
    (∃ r, saige_score_test_init misshapenModel = .ok r ∧ r.1.NSamp = 2 ∧ r.1.NCoeff = 1) ∧
    misshapenModel.lookup "y" = some (.real [1, 0] none) ∧
    misshapenModel.lookup "mu" = some (.real [1 / 2] none) ∧
    misshapenModel.lookup "y_mu" = some (.real [1 / 2, -1 / 2, 0] none) ∧
    misshapenModel.lookup "XV" = some (.real [1 / 4, 1 / 4] (some (1, 2))) ∧
    misshapenModel.lookup "t_X" = some (.real [1, 1, 1] (some (3, 1))) :=
  ⟨⟨_, rfl, rfl, rfl⟩, rfl, rfl, rfl, rfl, rfl⟩

/-! ### The vector `tmp` of the sparse branch (C6) -/

/-- C6 (amended): on the sparse branch of both tests the vector `tmp` that enters
`S2` is the covariate-residual product summed over the non-zero positions of `G`
only. -/
theorem sparse_tmp_is_restricted (E : Numerics F) (M : Model F) (b : Buffers F)
    (G : Nat → F) (mac : F) (minus : Bool) (k : Nat) (hk : k < M.NCoeff) :
    (quant_sparse E M b G mac minus).buf.tmp k = tmpRestricted M G k ∧
    (bin_sparse E M b G minus).buf.tmp k = tmpRestricted M G k :=
  ⟨mul_mat_vec_sp_nonzero _ _ _ _ _ _ _ _ hk, mul_mat_vec_sp_nonzero _ _ _ _ _ _ _ _ hk⟩

/-- C6 (amended) at a carrier of one allele among four samples. -/
theorem sparse_tmp_is_restricted_witness :
    (0 < (interceptModel 4).NCoeff) ∧
    (bin_sparse stubNumerics (interceptModel 4) zeroBuffers (vecOf [1, 0, 0, 0]) false).buf.tmp 0 =
      tmpRestricted (interceptModel 4) (vecOf [1, 0, 0, 0]) 0 :=
  ⟨by decide, (sparse_tmp_is_restricted stubNumerics (interceptModel 4) zeroBuffers
    (vecOf [1, 0, 0, 0]) 1 false 0 (by decide)).2⟩

/-- C6 as stated fails: for one carrier among four samples the sparse branch of each
test leaves `tmp[0] = 3/4`, the residual of the carrier, while the dense product over
all samples is `0`. -/
theorem sparse_tmp_not_dense :
    (bin_sparse stubNumerics (interceptModel 4) zeroBuffers (vecOf [1, 0, 0, 0]) false).buf.tmp 0
      = 3 / 4 ∧
    (quant_sparse stubNumerics (interceptModel 4) zeroBuffers (vecOf [1, 0, 0, 0]) 1
      false).buf.tmp 0 = 3 / 4 ∧
    tmpDense (interceptModel 4) 0 = 0 := by
  decide!

/-! ### Sparse and dense branch of the binary test (C7) -/

/-- In a consistent model the two projections of a dosage vector coincide. -/
theorem adjGeno_eq_sub_projGeno (M : Model F) (hM : M.Consistent) (G : Nat → F) (i : Nat)
    (hi : i < M.NSamp) : adjGeno M G i = G i - projGeno M G i := by
  obtain ⟨_, _, h3⟩ := hM
  simp only [adjGeno, projGeno, projCoeff]
  congr 1
  simp only [mul_sum]
  rw [sum_comm, sum_comm (s := range M.NCoeff)]
  refine sum_congr rfl (fun j hj => ?_)
  have := h3 i hi j (mem_range.mp hj)
  simp only [← mul_assoc, ← sum_mul]
  rw [this]

/-- In a consistent model the quadratic form of the projection coefficients is the
weighted square norm of the projected genotype. -/
theorem quad_form_eq (M : Model F) (hM : M.Consistent) (G : Nat → F) :
    ∑ j in range M.NCoeff, ∑ k in range M.NCoeff,
        projCoeff M G j * M.XVX j k * projCoeff M G k =
      ∑ i in range M.NSamp, M.mu2 i * projGeno M G i * projGeno M G i := by
  obtain ⟨h1, _, _⟩ := hM
  have e : ∀ i, M.mu2 i * projGeno M G i * projGeno M G i =
      ∑ j in range M.NCoeff, ∑ k in range M.NCoeff,
        projCoeff M G j * (M.mu2 i * M.t_X j i * M.t_X k i) * projCoeff M G k := by
    intro i
    simp only [projGeno, mul_sum, sum_mul]
    rw [sum_comm]
    refine sum_congr rfl (fun j _ => sum_congr rfl (fun k _ => ?_))
    ring
  calc ∑ j in range M.NCoeff, ∑ k in range M.NCoeff,
          projCoeff M G j * M.XVX j k * projCoeff M G k
      = ∑ j in range M.NCoeff, ∑ k in range M.NCoeff, ∑ i in range M.NSamp,
          projCoeff M G j * (M.mu2 i * M.t_X j i * M.t_X k i) * projCoeff M G k := by
        refine sum_congr rfl (fun j hj => sum_congr rfl (fun k hk => ?_))
        rw [h1 j (mem_range.mp hj) k (mem_range.mp hk), mul_sum, sum_mul]
    _ = ∑ j in range M.NCoeff, ∑ i in range M.NSamp, ∑ k in range M.NCoeff,
          projCoeff M G j * (M.mu2 i * M.t_X j i * M.t_X k i) * projCoeff M G k :=
        sum_congr rfl (fun j _ => sum_comm)
    _ = ∑ i in range M.NSamp, ∑ j in range M.NCoeff, ∑ k in range M.NCoeff,
          projCoeff M G j * (M.mu2 i * M.t_X j i * M.t_X k i) * projCoeff M G k := sum_comm
    _ = ∑ i in range M.NSamp, M.mu2 i * projGeno M G i * projGeno M G i :=
        sum_congr rfl (fun i _ => (e i).symm)

/-- In a consistent model the score of the sparse path is the score of the dense
path. -/
theorem sparse_S_eq_dense_S (E : Numerics F) (M : Model F) (hM : M.Consistent)
    (b c : Buffers F) (G : Nat → F) (minus : Bool) :
    (bin_sparse E M b G minus).S = (bin_dense E M c G minus).S := by
  rw [bin_sparse_S, bin_dense_S]
  have h2 := hM.2.1
  have t2 : ∑ k in range M.NCoeff, (tmpRestricted M G k - M.S_a k) * projCoeff M G k =
      ∑ i in range M.NSamp, if G i ≠ 0 then 0 else -(M.y_mu i * projGeno M G i) := by
    calc ∑ k in range M.NCoeff, (tmpRestricted M G k - M.S_a k) * projCoeff M G k
        = ∑ k in range M.NCoeff, ∑ i in range M.NSamp,
            if G i ≠ 0 then 0 else -(M.y_mu i * (M.t_X k i * projCoeff M G k)) := by
          refine sum_congr rfl (fun k hk => ?_)
          rw [h2 k (mem_range.mp hk), tmpRestricted, sum_filter, ← sum_sub_distrib, sum_mul]
          refine sum_congr rfl (fun i _ => ?_)
          by_cases h : G i = 0 <;> simp [h]
          ring
      _ = ∑ i in range M.NSamp, ∑ k in range M.NCoeff,
            if G i ≠ 0 then 0 else -(M.y_mu i * (M.t_X k i * projCoeff M G k)) := sum_comm
      _ = ∑ i in range M.NSamp, if G i ≠ 0 then 0 else -(M.y_mu i * projGeno M G i) := by
          refine sum_congr rfl (fun i _ => ?_)
          by_cases h : G i = 0
          · simp only [h, ne_eq, not_true_eq_false, if_false, projGeno, mul_sum, sum_neg_distrib]
          · simp [h]
  rw [t2, sum_filter, ← sum_add_distrib]
  refine sum_congr rfl (fun i hi => ?_)
  rw [adjGeno_eq_sub_projGeno M hM G i (mem_range.mp hi)]
  by_cases h : G i = 0
  · simp [h]
  · simp [h]

/-- In a consistent model the variance of the sparse path is the variance of the
dense path. -/
theorem sparse_var1_eq_dense_var1 (E : Numerics F) (M : Model F) (hM : M.Consistent)
    (b c : Buffers F) (G : Nat → F) (minus : Bool) :
    (bin_sparse E M b G minus).var1 = (bin_dense E M c G minus).var1 := by
  rw [bin_sparse_var1, bin_dense_var1, quad_form_eq M hM, sum_filter, ← sum_add_distrib]
  congr 1
  refine sum_congr rfl (fun i hi => ?_)
  rw [adjGeno_eq_sub_projGeno M hM G i (mem_range.mp hi)]
  by_cases h : G i = 0
  · simp [h]
  · simp only [ne_eq, h, not_false_eq_true, if_true]
    ring

/-- C7 (amended): in a consistent model the sparse path and the dense path of the
binary test give the same score `S`, the same variance `var1` and the same effect
estimate `beta`, for every preprocessed dosage vector, every sign flag and any
scratch contents. -/
theorem bin_sparse_dense_agree (E : Numerics F) (M : Model F) (hM : M.Consistent)
    (b c : Buffers F) (G : Nat → F) (minus : Bool) :
    (bin_sparse E M b G minus).S = (bin_dense E M c G minus).S ∧
    (bin_sparse E M b G minus).var1 = (bin_dense E M c G minus).var1 ∧
    (bin_sparse E M b G minus).beta = (bin_dense E M c G minus).beta := by
  refine ⟨sparse_S_eq_dense_S E M hM b c G minus,
    sparse_var1_eq_dense_var1 E M hM b c G minus, ?_⟩
  rw [bin_sparse_beta, bin_dense_beta, sparse_S_eq_dense_S E M hM b c G minus,
    sparse_var1_eq_dense_var1 E M hM b c G minus]

/-- C7 (amended) at a variant with `maf` exactly 0.05: one carrier among ten
samples of a consistent model. -/
theorem bin_sparse_dense_agree_witness :
    (interceptModel 10).Consistent ∧
    (preprocess (interceptModel 10) zeroBuffers (oneCarrier 10)).maf = 0.05 ∧
    (bin_sparse stubNumerics (interceptModel 10) zeroBuffers
        (preprocess (interceptModel 10) zeroBuffers (oneCarrier 10)).G false).S =
      (bin_dense stubNumerics (interceptModel 10) zeroBuffers
        (preprocess (interceptModel 10) zeroBuffers (oneCarrier 10)).G false).S :=
  ⟨by decide!, by decide!,
    (bin_sparse_dense_agree stubNumerics (interceptModel 10) (by decide!) zeroBuffers
      zeroBuffers (preprocess (interceptModel 10) zeroBuffers (oneCarrier 10)).G false).1⟩

/-- C7 as stated fails: in a model whose `S_a` is not `X^T (y - mu)` the sparse
branch gives the score `0` and the dense branch the score `1` for the same
vector. -/
theorem bin_sparse_dense_disagree :
    (bin_sparse stubNumerics inconsistentModel zeroBuffers (vecOf [1, 1, 1, 1]) false).S = 0 ∧
    (bin_dense stubNumerics inconsistentModel zeroBuffers (vecOf [1, 1, 1, 1]) false).S = 1 := by
  decide!

/-! ### Recalibration (C9, C10) -/

/-- C9 fails on the code: one carrier among eleven samples (`maf = 1/22`, sparse
branch, unadjusted statistic 11, recalibration triggered).  The vector handed to
`Saddle_Prob` is whatever `buf_adj_g` held before the call, and the returned `beta`
is `11` when its first cell held `1` and `11/2` when it held `2`. -/
theorem bin_result_depends_on_stale_adj_g :
    (preprocess (interceptModel 11) (staleBuffers 1) (oneCarrier 11)).maf = 1 / 22 ∧
    (bin_path stubNumerics (interceptModel 11)
      (preprocess (interceptModel 11) (staleBuffers 1) (oneCarrier 11))).S = 10 / 11 ∧
    (bin_path stubNumerics (interceptModel 11)
      (preprocess (interceptModel 11) (staleBuffers 1) (oneCarrier 11))).var1 = 100 / 1331 ∧
    (saige_score_test_bin stubNumerics (interceptModel 11) (staleBuffers 1)
        (oneCarrier 11)).ans.map (fun a => a.beta) = some 11 ∧
    (saige_score_test_bin stubNumerics (interceptModel 11) (staleBuffers 2)
        (oneCarrier 11)).ans.map (fun a => a.beta) = some (11 / 2) ∧
    (saige_score_test_bin stubNumerics (interceptModel 11) (staleBuffers 1)
        (oneCarrier 11)).spa_calls.map (fun c => c.g 0) = [1] ∧
    (saige_score_test_bin stubNumerics (interceptModel 11) (staleBuffers 2)
        (oneCarrier 11)).spa_calls.map (fun c => c.g 0) = [2] := by
  decide!

/-- The recalibrated effect estimate computed from any adjusted-genotype vector `a`
is the ratio of the two weighted sums of `a` before rescaling. -/
theorem bin_spa_beta_eq (E : Numerics F) (M : Model F) (a : Nat → F) (AC : F) (Num : Nat)
    (minus : Bool) (hres : ∀ i, i < M.NSamp → M.y_mu i = M.y i - M.mu i)
    (hsq : E.sqrt (if minus then 2 * (Num : F) - AC else AC) *
      E.sqrt (if minus then 2 * (Num : F) - AC else AC) =
        (if minus then 2 * (Num : F) - AC else AC))
    (hpos : 0 < (if minus then 2 * (Num : F) - AC else AC))
    (hV : (f64_dot_sp2 M.NSamp M.y_mu M.mu2 a).2 * M.varRatio ≠ 0) :
    (bin_spa E M a AC Num minus).beta =
      (f64_dot_sp2 M.NSamp M.y_mu M.mu2 a).1 /
        ((f64_dot_sp2 M.NSamp M.y_mu M.mu2 a).2 * M.varRatio) := by
  have hs : E.sqrt (if minus then 2 * (Num : F) - AC else AC) ≠ 0 := by
    intro h0
    rw [h0, mul_zero] at hsq
    exact absurd hsq.symm (ne_of_gt hpos)
  simp only [bin_spa, f64_dot, f64_dot_sp2, accum_eq_sum, zero_add] at hV ⊢
  generalize E.sqrt (if minus then 2 * (Num : F) - AC else AC) = s at hs hsq ⊢
  have e1 : ∑ i in range M.NSamp, M.y i * f64_mul M.NSamp (1 / s) a i -
      ∑ i in range M.NSamp, M.mu i * f64_mul M.NSamp (1 / s) a i =
      (1 / s) * ∑ i in range M.NSamp, M.y_mu i * a i := by
    rw [← sum_sub_distrib, mul_sum]
    refine sum_congr rfl (fun i hi => ?_)
    rw [f64_mul, if_pos (mem_range.mp hi), hres i (mem_range.mp hi)]
    ring
  have e2 : ∑ i in range M.NSamp,
      M.mu2 i * f64_mul M.NSamp (1 / s) a i * f64_mul M.NSamp (1 / s) a i =
      (1 / s) * (1 / s) * ∑ i in range M.NSamp, M.mu2 i * a i * a i := by
    rw [mul_sum]
    refine sum_congr rfl (fun i hi => ?_)
    rw [f64_mul, if_pos (mem_range.mp hi)]
    ring
  rw [e1, e2]
  generalize ∑ i in range M.NSamp, M.y_mu i * a i = S
  generalize ∑ i in range M.NSamp, M.mu2 i * a i * a i = V at hV ⊢
  have hV1 : V ≠ 0 := left_ne_zero_of_mul hV
  have hV2 : M.varRatio ≠ 0 := right_ne_zero_of_mul hV
  field_simp
  ring

/-- C10: on the dense path of the binary test, if `y_mu = y - mu` on every sample,
`AC2 > 0` (with `sqrt(AC2)` its exact square root) and the dense variance
`var1 = var * varRatio` is not zero, the recalibrated `beta = (Tstat/var1)/sqrt(AC2)`
computed from `adj_g / sqrt(AC2)` equals `S / var1` of the dense path: the unadjusted
beta when `minus` is false, its negation when `minus` is true. -/
theorem recalibrated_beta_dense (E : Numerics F) (M : Model F) (b : Buffers F)
    (G : Nat → F) (AC : F) (Num : Nat) (minus : Bool)
    (hres : ∀ i, i < M.NSamp → M.y_mu i = M.y i - M.mu i)
    (hpos : 0 < (if minus then 2 * (Num : F) - AC else AC))
    (hsq : E.sqrt (if minus then 2 * (Num : F) - AC else AC) *
      E.sqrt (if minus then 2 * (Num : F) - AC else AC) =
        (if minus then 2 * (Num : F) - AC else AC))
    (hvar : (bin_dense E M b G minus).var1 ≠ 0) :
    (bin_spa E M (bin_dense E M b G minus).buf.adj_g AC Num minus).beta =
        (bin_dense E M b G minus).S / (bin_dense E M b G minus).var1 ∧
      (bin_spa E M (bin_dense E M b G minus).buf.adj_g AC Num minus).beta =
        if minus then -(bin_dense E M b G minus).beta else (bin_dense E M b G minus).beta := by
  have key := bin_spa_beta_eq E M (bin_dense E M b G minus).buf.adj_g AC Num minus hres hsq
    hpos hvar
  have hS : (bin_dense E M b G minus).S / (bin_dense E M b G minus).var1 =
      (f64_dot_sp2 M.NSamp M.y_mu M.mu2 (bin_dense E M b G minus).buf.adj_g).1 /
        ((f64_dot_sp2 M.NSamp M.y_mu M.mu2 (bin_dense E M b G minus).buf.adj_g).2 *
          M.varRatio) := rfl
  refine ⟨key.trans hS.symm, ?_⟩
  rw [key, ← hS, bin_dense_beta]
  cases minus
  · simp
  · simp only [if_true]
    ring

/-- C10 at one carrier among four samples (`AC2 = 1`): the recalibrated and the
unadjusted estimate are both `16/3`. -/
theorem recalibrated_beta_dense_witness :
    (bin_dense stubNumerics (interceptModel 4) zeroBuffers (vecOf [1, 0, 0, 0])
      false).var1 ≠ 0 ∧
    (bin_spa stubNumerics (interceptModel 4)
      (bin_dense stubNumerics (interceptModel 4) zeroBuffers (vecOf [1, 0, 0, 0])
        false).buf.adj_g 1 4 false).beta =
      (bin_dense stubNumerics (interceptModel 4) zeroBuffers (vecOf [1, 0, 0, 0]) false).S /
        (bin_dense stubNumerics (interceptModel 4) zeroBuffers (vecOf [1, 0, 0, 0])
          false).var1 :=
  ⟨by decide!,
    (recalibrated_beta_dense stubNumerics (interceptModel 4) zeroBuffers (vecOf [1, 0, 0, 0])
      1 4 false (by decide!) (by decide!) (by decide!) (by decide!)).1⟩

end SAIGEgds
